import Mathlib

/-!
# Admission validation of in-cluster IP pools

A shallow embedding of `internal/webhooks/inclusterippool.go`
(`validate`, `validatePrefix`, `validateAddressesAreWithinPrefix`,
`ValidateCreate`, `ValidateUpdate`) together with the pool type of
`api/v1alpha2/inclusterippool_types.go`.

The webhook relies on `net/netip`, `go4.org/netipx` and on the package
`internal/poolutil`. The text parsers of the address library are taken as a
parameter (`NetText`); addresses, ranges, range sets and the range-set builder
are modelled as values; the three `poolutil` helpers are modelled from the
specification. A Go panic (index out of range) is the result `none`.
-/

namespace InClusterIPPool

/-! ## Addresses and ranges -/

/-- An IP address (netip.Addr): its family, its value as an unsigned integer and
its zone. The zone is the text after the percent sign of a scoped IPv6 address; it
is empty for an address without zone and for every IPv4 address. -/
structure Addr where
  Is6 : Bool
  val : Nat
  zone : String
deriving DecidableEq, Repr

/-- Bit width of the family of an address: 32 for IPv4, 128 for IPv6. -/
def Addr.BitLen (ip : Addr) : Nat := if ip.Is6 then 128 else 32

/-- Strict order of two texts as Go compares strings: character by character, a
proper beginning of a text before the text. -/
def textLess : List Char → List Char → Bool
  | [], [] => false
  | [], _ :: _ => true
  | _ :: _, [] => false
  | a :: as, b :: bs =>
    if a.toNat < b.toNat then true
    else if b.toNat < a.toNat then false
    else textLess as bs

/-- Strict order of addresses (netip.Addr.Less): by bit length first, then by
value, then by zone. -/
def Addr.Less (ip ip2 : Addr) : Bool :=
  decide (ip.BitLen < ip2.BitLen ∨ (ip.BitLen = ip2.BitLen ∧
    (ip.val < ip2.val ∨ (ip.val = ip2.val ∧ textLess ip.zone.data ip2.zone.data = true))))

/-- Non-strict order of addresses (Compare at most zero). -/
def Addr.lessOrEq (ip ip2 : Addr) : Bool :=
  decide (ip.BitLen < ip2.BitLen ∨ (ip.BitLen = ip2.BitLen ∧
    (ip.val < ip2.val ∨ (ip.val = ip2.val ∧ textLess ip2.zone.data ip.zone.data = false))))

/-- The address after `ip` (netip.Addr.Next), in the same zone; none stands for
the zero address returned after the last address of the family. -/
def Addr.Next (ip : Addr) : Option Addr :=
  if ip.val + 1 < 2 ^ ip.BitLen then some ⟨ip.Is6, ip.val + 1, ip.zone⟩ else none

/-- An inclusive range of addresses (netipx.IPRange). -/
structure IPRange where
  From : Addr
  To : Addr
deriving DecidableEq, Repr

/-- A range is valid when both ends are of one family and one zone and From is not
after To. -/
def IPRange.IsValid (r : IPRange) : Bool :=
  r.From.BitLen == r.To.BitLen && r.From.zone == r.To.zone && !(r.To.Less r.From)

/-- Sort order of ranges: by From, and for equal From the larger range first. -/
def IPRange.less (r other : IPRange) : Bool :=
  if r.From = other.From then other.To.Less r.To else r.From.Less other.From

/-- Holds when `r` lies entirely inside `other`. -/
def IPRange.coveredBy (r other : IPRange) : Bool :=
  other.From.lessOrEq r.From && r.To.lessOrEq other.To

/-- An address with a prefix length (netip.Prefix). A prefix has no zone: the zone
of its address is dropped where its block is computed. -/
structure Prefix where
  ip : Addr
  bits : Nat
deriving DecidableEq, Repr

/-- A prefix is valid when its length does not exceed the bit width of its address. -/
def Prefix.IsValid (p : Prefix) : Bool := decide (p.bits ≤ p.ip.BitLen)

/-- First address of the block of a prefix: the address with the host bits cleared. -/
def Prefix.Masked (p : Prefix) : Addr :=
  ⟨p.ip.Is6, p.ip.val / 2 ^ (p.ip.BitLen - p.bits) * 2 ^ (p.ip.BitLen - p.bits), ""⟩

/-- Last address of the block of a prefix: the address with the host bits set. -/
def PrefixLastIP (p : Prefix) : Addr :=
  ⟨p.ip.Is6, p.ip.val / 2 ^ (p.ip.BitLen - p.bits) * 2 ^ (p.ip.BitLen - p.bits)
    + (2 ^ (p.ip.BitLen - p.bits) - 1), ""⟩

/-- The range of a prefix (netipx.RangeOfPrefix); none stands for the zero range
returned for a prefix that is not valid. -/
def RangeOfPrefix (p : Prefix) : Option IPRange :=
  if p.IsValid then some ⟨p.Masked, PrefixLastIP p⟩ else none

/-! ## Text of addresses -/

/-- The text functions of the address library, taken as a parameter.
`ParseAddr` is netip.ParseAddr (a bare address, or the message of the parser);
`rangeForm` reads a text of the form `A-B` and `cidrForm` a text of the form
`A/len`, each giving the parts read; `Sprint` renders an address. -/
structure NetText where
  ParseAddr : String → Except String Addr
  rangeForm : String → Option (Addr × Addr)
  cidrForm : String → Option (Addr × Nat)
  Sprint : Addr → String

/-- Modelled from the spec: the call
`netip.ParsePrefix(fmt.Sprintf("%s/%d", ip, bits))` of validatePrefix, whose
functions are not among the sources (§4.1 CIDR bounds, §4.3 step 4). The text
before the slash is the rendering of `ip`, zone included, which reads back as `ip`;
the text after it is the decimal of `bits`. The library refuses the text when the
address carries a zone, and when the length is outside `0 .. BitLen` of the family;
otherwise it keeps the address bits. -/
def ParsePrefixSprintf (ip : Addr) (bits : Int) : Option Prefix :=
  if ip.zone = "" ∧ 0 ≤ bits ∧ bits ≤ (ip.BitLen : Int) then some ⟨ip, bits.toNat⟩ else none

/-! ## Range sets and their builder (netipx.IPSet, netipx.IPSetBuilder) -/

/-- A set of addresses kept as sorted ranges without overlap (netipx.IPSet). A set
may hold ranges of both families, those of IPv4 before those of IPv6. -/
structure IPSet where
  rr : List IPRange
deriving DecidableEq, Repr

/-- The ranges of a set, ascending. -/
def IPSet.Ranges (s : IPSet) : List IPRange := s.rr

/-- Holds when all addresses of `r` are in the set: some range of the set covers `r`. -/
def IPSet.ContainsRange (s : IPSet) (r : IPRange) : Bool :=
  s.rr.any fun x => r.coveredBy x

/-- Insertion of a range in a list sorted by `IPRange.less`. -/
def insertRange (r : IPRange) : List IPRange → List IPRange
  | [] => [r]
  | x :: xs => if r.less x then r :: x :: xs else x :: insertRange r xs

/-- Ranges sorted by `IPRange.less`. -/
def sortRanges (rr : List IPRange) : List IPRange := rr.foldr insertRange []

/-- Merging pass over sorted ranges: `prev` is the last range of the output so far. -/
def mergeFrom (prev : IPRange) : List IPRange → List IPRange
  | [] => [prev]
  | r :: rs =>
    if prev.To.Next = some r.From then mergeFrom ⟨prev.From, r.To⟩ rs
    else if prev.To.Less r.From then prev :: mergeFrom r rs
    else if prev.To.Less r.To then mergeFrom ⟨prev.From, r.To⟩ rs
    else mergeFrom prev rs

/-- Sorts the ranges and merges those that overlap or touch. -/
def mergeIPRanges (rr : List IPRange) : List IPRange :=
  match sortRanges rr with
  | [] => []
  | r :: rs => mergeFrom r rs

/-- What the builder refused to add. -/
inductive BuilderError where
  | AddRange (r : IPRange)
  | AddPrefix (p : Prefix)
deriving DecidableEq, Repr

/-- Text of a builder error. -/
def BuilderError.Error (L : NetText) : BuilderError → String
  | .AddRange r => "AddRange(" ++ L.Sprint r.From ++ "-" ++ L.Sprint r.To ++ ")"
  | .AddPrefix p => "AddPrefix(" ++ L.Sprint p.ip ++ "/" ++ toString p.bits ++ ")"

/-- The builder of range sets, restricted to additions: the ranges added so far
and the errors recorded so far. -/
structure IPSetBuilder where
  ins : List IPRange := []
  errs : List BuilderError := []
deriving DecidableEq, Repr

/-- Adds a range; a range that is not valid is recorded as an error. -/
def IPSetBuilder.AddRange (s : IPSetBuilder) (r : IPRange) : IPSetBuilder :=
  if !r.IsValid then ⟨s.ins, s.errs ++ [.AddRange r]⟩ else ⟨s.ins ++ [r], s.errs⟩

/-- Adds one address. -/
def IPSetBuilder.Add (s : IPSetBuilder) (ip : Addr) : IPSetBuilder :=
  s.AddRange ⟨ip, ip⟩

/-- Adds the block of a prefix; a prefix without a valid range is recorded as an error. -/
def IPSetBuilder.AddPrefix (s : IPSetBuilder) (p : Prefix) : IPSetBuilder :=
  match RangeOfPrefix p with
  | some r => if r.IsValid then s.AddRange r else ⟨s.ins, s.errs ++ [.AddPrefix p]⟩
  | none => ⟨s.ins, s.errs ++ [.AddPrefix p]⟩

/-- Adds all ranges of a set. -/
def IPSetBuilder.AddSet (s : IPSetBuilder) (b : IPSet) : IPSetBuilder :=
  b.rr.foldl IPSetBuilder.AddRange s

/-- The set of the ranges added, sorted and merged, or the recorded errors joined.
An empty builder gives the empty set. -/
def IPSetBuilder.IPSet (L : NetText) (s : IPSetBuilder) : Except String IPSet :=
  if s.errs.length = 0 then .ok ⟨mergeIPRanges s.ins⟩
  else .error ("; ".intercalate (s.errs.map (BuilderError.Error L)))

/-! ## The helpers of package poolutil -/

/-- Modelled from the spec: the address-spec parser of §4.1, behind
poolutil.AddressToIPSet, which is not among the sources. The three forms are
tried in the order single address, hyphenated range, CIDR block; a range fails
when its ends are of different families or From is after To, a CIDR block when
its length is out of bounds for the family; a text of none of the forms fails as
not a valid IP, range, nor CIDR. -/
def parse (L : NetText) (s : String) : Except String IPRange :=
  match L.ParseAddr s with
  | .ok ip => .ok ⟨ip, ip⟩
  | .error _ =>
    match L.rangeForm s with
    | some (a, b) =>
      if (IPRange.mk a b).IsValid then .ok ⟨a, b⟩
      else .error "not a valid IP, range, nor CIDR"
    | none =>
      match L.cidrForm s with
      | some (a, len) =>
        match RangeOfPrefix ⟨a, len⟩ with
        | some r => .ok r
        | none => .error "not a valid IP, range, nor CIDR"
      | none => .error "not a valid IP, range, nor CIDR"

/-- Modelled from the spec: poolutil.AddressToIPSet, which is not among the
sources: one address specification is parsed (§4.1) and a range set is built
(§4.2) from its range. -/
def AddressToIPSet (L : NetText) (addressStr : String) : Except String IPSet :=
  match parse L addressStr with
  | .error e => .error e
  | .ok r => (IPSetBuilder.AddRange {} r).IPSet L

/-- Modelled from the spec: poolutil.AddressStrParses, which is not among the
sources: the boolean-only variant of the parser of §4.1. -/
def AddressStrParses (L : NetText) (addressStr : String) : Bool :=
  match AddressToIPSet L addressStr with
  | .ok _ => true
  | .error _ => false

/-- Modelled from the spec: the loop of poolutil.AddressesToIPSet, which is not
among the sources: each address specification is parsed and its set added to the
builder; the first one that does not parse ends the loop. -/
def AddressesToIPSet.loop (L : NetText) :
    IPSetBuilder → List String → Except String IPSetBuilder
  | builder, [] => .ok builder
  | builder, addressStr :: rest =>
    match AddressToIPSet L addressStr with
    | .error e => .error e
    | .ok ipSet => AddressesToIPSet.loop L (builder.AddSet ipSet) rest

/-- Modelled from the spec: poolutil.AddressesToIPSet, which is not among the
sources: all addresses are parsed via §4.1 into ranges and one range set (§4.2)
is built over them. An empty list gives the empty set, as the builder of the
library does; validate never calls it on one. -/
def AddressesToIPSet (L : NetText) (addresses : List String) : Except String IPSet :=
  match AddressesToIPSet.loop L {} addresses with
  | .error e => .error e
  | .ok builder => builder.IPSet L

/-! ## The pool and the validation errors -/

/-- The desired state of a pool (InClusterIPPoolSpec). -/
structure InClusterIPPoolSpec where
  Addresses : List String
  Prefix : Int
  Gateway : String
deriving DecidableEq, Repr

/-- A pool object behind the interface GenericInClusterPool: the kind and the
name of the object and its pool spec. Both pool types have this shape. -/
structure GenericInClusterPool where
  Kind : String
  Name : String
  Spec : InClusterIPPoolSpec
deriving DecidableEq, Repr

/-- The accessor of the interface. -/
def GenericInClusterPool.PoolSpec (p : GenericInClusterPool) : InClusterIPPoolSpec := p.Spec

/-- A runtime object handed to the webhook: a pool, or an object of another type. -/
inductive Object where
  | pool (p : GenericInClusterPool)
  | other (typeName : String)
deriving DecidableEq, Repr

/-- The rejected value carried by a field error. -/
inductive BadValue where
  | strs (v : List String)
  | int (v : Int)
  | str (v : String)
deriving DecidableEq, Repr

/-- A field error of type invalid: field path, rejected value, reason. -/
structure FieldError where
  Field : String
  BadValue : BadValue
  Detail : String
deriving DecidableEq, Repr

abbrev ErrorList := List FieldError

/-- The path of a field (field.NewPath), rendered with dots. -/
def NewPath (name : String) (moreNames : List String) : String :=
  moreNames.foldl (fun p n => p ++ "." ++ n) name

/-- The constructor field.Invalid. -/
def Invalid (field : String) (value : BadValue) (detail : String) : FieldError :=
  ⟨field, value, detail⟩

/-- An API status error: the invalid-object error carrying the field errors, or a
bad-request error. -/
inductive StatusError where
  | Invalid (kind : String) (name : String) (errs : ErrorList)
  | BadRequest (reason : String)
deriving DecidableEq, Repr

/-- The constructor apierrors.NewInvalid. -/
def NewInvalid (kind name : String) (errs : ErrorList) : StatusError := .Invalid kind name errs

/-- The constructor apierrors.NewBadRequest. -/
def NewBadRequest (reason : String) : StatusError := .BadRequest reason

/-- The field errors carried by a returned error; the nil error carries none. -/
def errorList : Option StatusError → ErrorList
  | some (.Invalid _ _ errs) => errs
  | _ => []

/-! ## The webhook -/

/-- The function validatePrefix: the range set of the block `anchor/prefix`, where
the anchor is the first address of the set of all declared addresses, with the
errors found. The result none is the panic of `Ranges()[0]` on a set without range. -/
def validatePrefix (L : NetText) (spec : InClusterIPPoolSpec) : Option (IPSet × ErrorList) :=
  let errors : ErrorList := []
  match AddressesToIPSet L spec.Addresses with
  | .error err =>
    let errors := errors ++ [Invalid (NewPath "spec" ["addresses"]) (.strs spec.Addresses) err]
    some (⟨[]⟩, errors)
  | .ok addressesIPSet =>
    match addressesIPSet.Ranges with
    | [] => none
    | first :: _ =>
      let firstIPInAddresses := first.From
      match ParsePrefixSprintf firstIPInAddresses spec.Prefix with
      | none =>
        let errors := errors ++
          [Invalid (NewPath "spec" ["prefix"]) (.int spec.Prefix) "provided prefix is not valid"]
        some (⟨[]⟩, errors)
      | some pfx =>
        let builder : IPSetBuilder := {}
        let builder := builder.AddPrefix pfx
        match builder.IPSet L with
        | .error err =>
          let errors := errors ++ [Invalid (NewPath "spec" ["prefix"]) (.int spec.Prefix) err]
          some (⟨[]⟩, errors)
        | .ok prefixIPSet => some (prefixIPSet, errors)

/-- The loop of validateAddressesAreWithinPrefix over the addresses, with the
errors accumulated so far. The result none is the panic of `Ranges()[0]`. -/
def validateAddressesAreWithinPrefix.loop (L : NetText) (prefixIPSet : IPSet) :
    ErrorList → List String → Option ErrorList
  | errors, [] => some errors
  | errors, addressStr :: rest =>
    match AddressToIPSet L addressStr with
    | .error _ =>
      validateAddressesAreWithinPrefix.loop L prefixIPSet
        (errors ++ [Invalid (NewPath "spec" ["addresses"]) (.str addressStr)
          "provided address is not a valid IP, range, nor CIDR"]) rest
    | .ok addressIPSet =>
      match addressIPSet.Ranges with
      | [] => none
      | first :: _ =>
        if !prefixIPSet.ContainsRange first then
          validateAddressesAreWithinPrefix.loop L prefixIPSet
            (errors ++ [Invalid (NewPath "spec" ["addresses"]) (.str addressStr)
              "provided address belongs to a different subnet than others"]) rest
        else validateAddressesAreWithinPrefix.loop L prefixIPSet errors rest

/-- The function validateAddressesAreWithinPrefix. -/
def validateAddressesAreWithinPrefix (L : NetText) (spec : InClusterIPPoolSpec) :
    Option ErrorList :=
  let errors : ErrorList := []
  match validatePrefix L spec with
  | none => none
  | some (prefixIPSet, prefixErrs) =>
    if prefixErrs.length > 0 then some prefixErrs
    else validateAddressesAreWithinPrefix.loop L prefixIPSet errors spec.Addresses

/-- The loop of validate over the addresses: one error for each entry that does
not parse. -/
def validate.loop (L : NetText) : ErrorList → List String → ErrorList
  | allErrs, [] => allErrs
  | allErrs, address :: rest =>
    if !AddressStrParses L address then
      validate.loop L (allErrs ++ [Invalid (NewPath "spec" ["addresses"]) (.str address)
        "provided address is not a valid IP, range, nor CIDR"]) rest
    else validate.loop L allErrs rest

/-- The deferred function of validate: the collected errors become the returned
error, nil when there is none. -/
def validate.deferred (newPool : GenericInClusterPool) (allErrs : ErrorList) :
    Option StatusError :=
  if allErrs.length > 0 then some (NewInvalid newPool.Kind newPool.Name allErrs) else none

/-- The function validate. The first argument, the prior version of the pool (nil
on creation), is not used. The result none is a panic; `some none` is the nil error. -/
def validate (L : NetText) (_old : Option GenericInClusterPool)
    (newPool : GenericInClusterPool) : Option (Option StatusError) :=
  let allErrs : ErrorList := []
  let allErrs :=
    if newPool.PoolSpec.Addresses.length = 0 then
      allErrs ++ [Invalid (NewPath "spec" ["addresses"]) (.strs newPool.PoolSpec.Addresses)
        "addresses is required"]
    else allErrs
  let allErrs :=
    if newPool.PoolSpec.Prefix = 0 then
      allErrs ++ [Invalid (NewPath "spec" ["prefix"]) (.int newPool.PoolSpec.Prefix)
        "a valid prefix is required"]
    else allErrs
  let allErrs :=
    if newPool.PoolSpec.Gateway ≠ "" then
      match L.ParseAddr newPool.PoolSpec.Gateway with
      | .error err =>
        allErrs ++ [Invalid (NewPath "spec" ["gateway"]) (.str newPool.PoolSpec.Gateway) err]
      | .ok _ => allErrs
    else allErrs
  let allErrs := validate.loop L allErrs newPool.PoolSpec.Addresses
  if allErrs.length = 0 then
    match validateAddressesAreWithinPrefix L newPool.PoolSpec with
    | none => none
    | some errs =>
      if errs.length ≠ 0 then some (validate.deferred newPool (allErrs ++ errs))
      else some (validate.deferred newPool allErrs)
  else some (validate.deferred newPool allErrs)

/-- The function ValidateCreate. -/
def ValidateCreate (L : NetText) (obj : Object) : Option (Option StatusError) :=
  match obj with
  | .other t =>
    some (some (NewBadRequest
      ("expected a InClusterIPPool or an GlobalInClusterIPPool but got a " ++ t)))
  | .pool pool => validate L none pool

/-- The function ValidateUpdate. -/
def ValidateUpdate (L : NetText) (oldObj newObj : Object) : Option (Option StatusError) :=
  match newObj with
  | .other t =>
    some (some (NewBadRequest
      ("expected a InClusterIPPool or an GlobalInClusterIPPool but got a " ++ t)))
  | .pool newPool =>
    match oldObj with
    | .other t =>
      some (some (NewBadRequest
        ("expected a InClusterIPPool or an GlobalInClusterIPPool but got a " ++ t)))
    | .pool oldPool => validate L (some oldPool) newPool

/-! ## A text library for the examples

Dotted-decimal IPv4 and colon-hexadecimal IPv6 (with one `::` and with a zone),
without embedded dotted decimal. -/

/-- Splits a text at every occurrence of a character. -/
def splitAll (c : Char) : List Char → List (List Char)
  | [] => [[]]
  | x :: xs =>
    if x = c then [] :: splitAll c xs
    else
      match splitAll c xs with
      | [] => [[x]]
      | g :: gs => (x :: g) :: gs

/-- Splits a text at the first occurrence of a character. -/
def splitFirst (c : Char) : List Char → Option (List Char × List Char)
  | [] => none
  | x :: xs =>
    if x = c then some ([], xs)
    else
      match splitFirst c xs with
      | some (l, r) => some (x :: l, r)
      | none => none

/-- Splits a text at the last occurrence of a character. -/
def splitLast (c : Char) : List Char → Option (List Char × List Char)
  | [] => none
  | x :: xs =>
    match splitLast c xs with
    | some (l, r) => some (x :: l, r)
    | none => if x = c then some ([], xs) else none

/-- Splits a text at the first double colon. -/
def splitDoubleColon : List Char → Option (List Char × List Char)
  | [] => none
  | x :: xs =>
    if x = ':' ∧ xs.head? = some ':' then some ([], xs.tail)
    else
      match splitDoubleColon xs with
      | some (l, r) => some (x :: l, r)
      | none => none

/-- Value of a decimal digit. -/
def decDigit (c : Char) : Option Nat :=
  if '0'.toNat ≤ c.toNat ∧ c.toNat ≤ '9'.toNat then some (c.toNat - '0'.toNat) else none

/-- Value of a hexadecimal digit. -/
def hexDigit (c : Char) : Option Nat :=
  if '0'.toNat ≤ c.toNat ∧ c.toNat ≤ '9'.toNat then some (c.toNat - '0'.toNat)
  else if 'a'.toNat ≤ c.toNat ∧ c.toNat ≤ 'f'.toNat then some (c.toNat - 'a'.toNat + 10)
  else if 'A'.toNat ≤ c.toNat ∧ c.toNat ≤ 'F'.toNat then some (c.toNat - 'A'.toNat + 10)
  else none

/-- Value of a text of digits in a base; none for a text with another character. -/
def number (base : Nat) (digit : Char → Option Nat) (cs : List Char) : Option Nat :=
  cs.foldl (fun acc c =>
    match acc, digit c with
    | some n, some d => some (n * base + d)
    | _, _ => none) (some 0)

/-- A decimal without sign and without leading zero. -/
def decimal (cs : List Char) : Option Nat :=
  if cs = [] ∨ (1 < cs.length ∧ cs.head? = some '0') then none else number 10 decDigit cs

/-- One field of a dotted-decimal address. -/
def octet (cs : List Char) : Option Nat :=
  match decimal cs with
  | some n => if n ≤ 255 then some n else none
  | none => none

/-- One group of a colon-hexadecimal address: one to four digits. -/
def hexGroup (cs : List Char) : Option Nat :=
  if cs = [] ∨ 4 < cs.length then none else number 16 hexDigit cs

/-- All values of a list of options, when none is missing. -/
def allSome : List (Option Nat) → Option (List Nat)
  | [] => some []
  | none :: _ => none
  | some n :: rest =>
    match allSome rest with
    | some ns => some (n :: ns)
    | none => none

/-- The groups of a text of groups separated by colons; the empty text has none. -/
def hexGroups (cs : List Char) : Option (List Nat) :=
  if cs = [] then some [] else allSome ((splitAll ':' cs).map hexGroup)

/-- The value of a list of fields of a given width, most significant first. -/
def joinFields (width : Nat) (fields : List Nat) : Nat :=
  fields.foldl (fun acc f => acc * 2 ^ width + f) 0

/-- A dotted-decimal address. -/
def parseIPv4 (cs : List Char) : Option Addr :=
  match allSome ((splitAll '.' cs).map octet) with
  | some fields => if fields.length = 4 then some ⟨false, joinFields 8 fields, ""⟩ else none
  | none => none

/-- A colon-hexadecimal address, in the given zone. -/
def parseIPv6 (cs : List Char) (zone : String) : Option Addr :=
  match splitDoubleColon cs with
  | none =>
    match hexGroups cs with
    | some fields =>
      if fields.length = 8 then some ⟨true, joinFields 16 fields, zone⟩ else none
    | none => none
  | some (l, r) =>
    match hexGroups l, hexGroups r with
    | some gl, some gr =>
      if gl.length + gr.length ≤ 7 then
        some ⟨true, joinFields 16
          (gl ++ List.replicate (8 - (gl.length + gr.length)) 0 ++ gr), zone⟩
      else none
    | _, _ => none

/-- A bare address in either family; an IPv6 address may be followed by a percent
sign and a zone that is not empty. -/
def parseAddrText (cs : List Char) : Option Addr :=
  match parseIPv4 cs with
  | some ip => some ip
  | none =>
    match splitFirst '%' cs with
    | none => parseIPv6 cs ""
    | some (l, z) => if z = [] then none else parseIPv6 l (String.mk z)

/-- The fields of a value, most significant first. -/
def fieldsOf (width : Nat) : Nat → Nat → List Nat
  | 0, _ => []
  | n + 1, v => fieldsOf width n (v / 2 ^ width) ++ [v % 2 ^ width]

/-- Number of zero fields at the start of a list. -/
def zeroRun : List Nat → Nat
  | 0 :: rest => zeroRun rest + 1
  | _ => 0

/-- Start and length of the first longest run of at least two zero fields. -/
def longestZeroRun : List Nat → Nat → Nat × Nat
  | [], _ => (0, 0)
  | x :: rest, i =>
    let here := zeroRun (x :: rest)
    let later := longestZeroRun rest (i + 1)
    if 2 ≤ here ∧ later.2 ≤ here then (i, here) else later

/-- Rendering of an address: dotted decimal, or colon-hexadecimal with the first
longest run of zero groups written as a double colon, followed by the percent sign
and the zone when there is one. -/
def sprintAddr (ip : Addr) : String :=
  if ip.Is6 then
    let g := fieldsOf 16 8 ip.val
    let hex := fun (n : Nat) => String.mk (Nat.toDigits 16 n)
    let run := longestZeroRun g 0
    let zone := if ip.zone = "" then "" else "%" ++ ip.zone
    if run.2 = 0 then ":".intercalate (g.map hex) ++ zone
    else ":".intercalate ((g.take run.1).map hex) ++ "::" ++
      ":".intercalate ((g.drop (run.1 + run.2)).map hex) ++ zone
  else ".".intercalate ((fieldsOf 8 4 ip.val).map fun n => String.mk (Nat.toDigits 10 n))

/-- The text in double quotes (strconv.Quote on plain printable characters). -/
def quote (s : String) : String := "\"" ++ s ++ "\""

/-- The text library used in the examples. A text that is no address is refused
with the message the library gives for a text without dot and colon. The ends of a
range are read without their zone, and a CIDR block with a zone is refused. -/
def netText : NetText where
  ParseAddr := fun s =>
    match parseAddrText s.data with
    | some ip => .ok ip
    | none => .error ("ParseAddr(" ++ quote s ++ "): unable to parse IP")
  rangeForm := fun s =>
    match splitFirst '-' s.data with
    | some (l, r) =>
      match parseAddrText l, parseAddrText r with
      | some a, some b => some (⟨a.Is6, a.val, ""⟩, ⟨b.Is6, b.val, ""⟩)
      | _, _ => none
    | none => none
  cidrForm := fun s =>
    match splitLast '/' s.data with
    | some (l, r) =>
      match parseAddrText l, decimal r with
      | some a, some len => if a.zone = "" then some (a, len) else none
      | _, _ => none
    | none => none
  Sprint := sprintAddr

/-! ## The errors and the conditions as the specification words them -/

/-- Error of step 1 for an empty address list. -/
def addressesRequired (addresses : List String) : FieldError :=
  ⟨"spec.addresses", .strs addresses, "addresses is required"⟩

/-- Error of step 1 for a zero prefix. -/
def prefixRequired (p : Int) : FieldError :=
  ⟨"spec.prefix", .int p, "a valid prefix is required"⟩

/-- Error of step 2 for a gateway that does not parse, with the message of the parser. -/
def gatewayError (gateway message : String) : FieldError :=
  ⟨"spec.gateway", .str gateway, message⟩

/-- Error of step 3 for an entry that does not parse. -/
def syntaxError (address : String) : FieldError :=
  ⟨"spec.addresses", .str address, "provided address is not a valid IP, range, nor CIDR"⟩

/-- Error of step 4 for a prefix that gives no valid network. -/
def prefixNotValid (p : Int) : FieldError :=
  ⟨"spec.prefix", .int p, "provided prefix is not valid"⟩

/-- Error of step 4 for an entry outside the subnet. -/
def differentSubnet (address : String) : FieldError :=
  ⟨"spec.addresses", .str address, "provided address belongs to a different subnet than others"⟩

/-- Errors of step 1 (required fields). -/
def requiredFieldErrors (spec : InClusterIPPoolSpec) : ErrorList :=
  (if spec.Addresses = [] then [addressesRequired spec.Addresses] else []) ++
  (if spec.Prefix = 0 then [prefixRequired spec.Prefix] else [])

/-- Errors of step 2 (gateway syntax). -/
def gatewayErrors (L : NetText) (spec : InClusterIPPoolSpec) : ErrorList :=
  if spec.Gateway = "" then []
  else
    match L.ParseAddr spec.Gateway with
    | .ok _ => []
    | .error message => [gatewayError spec.Gateway message]

/-- Holds when the entry has one of the three forms of §4.1. -/
def parses (L : NetText) (address : String) : Bool :=
  match parse L address with
  | .ok _ => true
  | .error _ => false

/-- Errors of step 3 (per-address syntax): one for each entry that does not parse,
in the order of the list. -/
def syntaxErrors (L : NetText) (spec : InClusterIPPoolSpec) : ErrorList :=
  (spec.Addresses.filter fun s => !parses L s).map syntaxError

/-- The ranges of the entries that parse, in the order of the list. -/
def rangesOf (L : NetText) (addresses : List String) : List IPRange :=
  addresses.filterMap fun s =>
    match parse L s with
    | .ok r => some r
    | .error _ => none

/-- The anchor of the subnet: an address is the lowest over all entries when the
range of some entry starts at it and the range of no entry starts before it. -/
def IsLowestAddress (L : NetText) (addresses : List String) (anchor : Addr) : Prop :=
  (∃ r ∈ rangesOf L addresses, r.From = anchor) ∧
  ∀ r ∈ rangesOf L addresses, anchor.lessOrEq r.From = true

instance (L : NetText) (addresses : List String) (anchor : Addr) :
    Decidable (IsLowestAddress L addresses anchor) :=
  inferInstanceAs (Decidable ((∃ r ∈ rangesOf L addresses, r.From = anchor) ∧
    ∀ r ∈ rangesOf L addresses, anchor.lessOrEq r.From = true))

/-- Holds when the range of the entry lies entirely inside the block. -/
def inBlock (L : NetText) (block : IPRange) (address : String) : Bool :=
  match parse L address with
  | .ok r => r.coveredBy block
  | .error _ => false

/-- Errors of the membership check: one for each entry whose range is not inside
the block, in the order of the list. -/
def membershipErrors (L : NetText) (block : IPRange) (addresses : List String) : ErrorList :=
  (addresses.filter fun s => !inBlock L block s).map differentSubnet

/-- The block of the network `anchor/prefix`, when that text is a valid network. -/
def blockOf (anchor : Addr) (pfx : Int) : Option IPRange :=
  match ParsePrefixSprintf anchor pfx with
  | some p => RangeOfPrefix p
  | none => none

/-- Errors of steps 1 to 3, in the order produced. -/
def syntaxPhaseErrors (L : NetText) (spec : InClusterIPPoolSpec) : ErrorList :=
  requiredFieldErrors spec ++ gatewayErrors L spec ++ syntaxErrors L spec

/-! ## Invariant of the sorted ranges -/

/-- Holds when the first range of the list starts at or before every other one. -/
def HeadLowest : List IPRange → Prop
  | [] => True
  | h :: t => ∀ x ∈ t, h.From.lessOrEq x.From = true

/-! ## The pools of the examples -/

/-- The pool of scenario C: two addresses of different /24 networks. -/
def poolTwoSubnets : GenericInClusterPool :=
  ⟨"InClusterIPPool", "pool", ⟨["10.0.0.5", "10.0.1.5"], 24, ""⟩⟩

/-- The pool of scenario C with a gateway that does not parse. -/
def poolBadGateway : GenericInClusterPool :=
  ⟨"InClusterIPPool", "pool", ⟨["10.0.0.5", "10.0.1.5"], 24, "gateway"⟩⟩

/-- The pool of scenario F: prefix 200 on an IPv4 address. -/
def poolPrefix200 : GenericInClusterPool :=
  ⟨"InClusterIPPool", "pool", ⟨["10.0.0.5"], 200, ""⟩⟩

/-- A pool with two addresses of different subnets and an entry that does not parse. -/
def poolBadEntry : GenericInClusterPool :=
  ⟨"InClusterIPPool", "pool", ⟨["10.0.0.5", "10.0.1.5", "not-an-ip"], 24, ""⟩⟩

/-- The pool of scenario E: a range with its gateway. -/
def poolRange : GenericInClusterPool :=
  ⟨"InClusterIPPool", "pool", ⟨["10.0.0.1-10.0.0.10"], 28, "10.0.0.1"⟩⟩

/-- A pool of one scoped IPv6 address with a prefix within the bit width. -/
def poolZoned : GenericInClusterPool :=
  ⟨"InClusterIPPool", "pool", ⟨["fe80::1%eth0"], 64, ""⟩⟩

/-- A pool of one scoped IPv6 address with the full prefix. -/
def poolZonedHost : GenericInClusterPool :=
  ⟨"InClusterIPPool", "pool", ⟨["fe80::2%eth1"], 128, ""⟩⟩

/-- A pool with an IPv4 and an IPv6 address. -/
def poolMixed : GenericInClusterPool :=
  ⟨"InClusterIPPool", "pool", ⟨["10.0.0.5", "::1"], 24, ""⟩⟩

/-! ## Order of addresses -/

theorem textLess_irrefl (a : List Char) : textLess a a = false := by
  induction a with
  | nil => rfl
  | cons x xs ih => simp [textLess, ih]

theorem textLess_trans : ∀ {a b c : List Char},
    textLess a b = true → textLess b c = true → textLess a c = true
  | [], [], _, h, _ => by simp [textLess] at h
  | [], _ :: _, [], _, h => by simp [textLess] at h
  | [], _ :: _, _ :: _, _, _ => by simp [textLess]
  | _ :: _, [], _, h, _ => by simp [textLess] at h
  | _ :: _, _ :: _, [], _, h => by simp [textLess] at h
  | x :: xs, y :: ys, z :: zs, h1, h2 => by
    simp only [textLess] at h1 h2 ⊢
    split_ifs at h1 h2 ⊢ <;>
      first
        | rfl
        | omega
        | exact textLess_trans h1 h2

theorem textLess_total : ∀ {a b : List Char},
    textLess a b = false → textLess b a = false → a = b
  | [], [], _, _ => rfl
  | [], _ :: _, h, _ => by simp [textLess] at h
  | _ :: _, [], _, h => by simp [textLess] at h
  | x :: xs, y :: ys, h1, h2 => by
    simp only [textLess] at h1 h2
    split_ifs at h1 h2 with c1 c2
    have hxy : x.toNat = y.toNat := by omega
    have hc : x = y := by rw [← Char.ofNat_toNat x, ← Char.ofNat_toNat y, hxy]
    rw [hc, textLess_total h1 h2]

theorem textLess_asymm {a b : List Char} (h : textLess a b = true) : textLess b a = false := by
  cases hb : textLess b a with
  | false => rfl
  | true =>
    have := textLess_trans h hb
    rw [textLess_irrefl] at this
    cases this

theorem textLess_le_trans {a b c : List Char} (h1 : textLess b a = false)
    (h2 : textLess c b = false) : textLess c a = false := by
  cases hca : textLess c a with
  | false => rfl
  | true =>
    cases hab : textLess a b with
    | false =>
      have := textLess_total hab h1
      subst this
      rw [hca] at h2; cases h2
    | true =>
      have := textLess_trans hca hab
      rw [this] at h2; cases h2

theorem Addr.lessOrEq_iff (a b : Addr) :
    a.lessOrEq b = true ↔ a.BitLen < b.BitLen ∨ (a.BitLen = b.BitLen ∧
      (a.val < b.val ∨ (a.val = b.val ∧ textLess b.zone.data a.zone.data = false))) := by
  simp [Addr.lessOrEq]

theorem Addr.Less_iff (a b : Addr) :
    a.Less b = true ↔ a.BitLen < b.BitLen ∨ (a.BitLen = b.BitLen ∧
      (a.val < b.val ∨ (a.val = b.val ∧ textLess a.zone.data b.zone.data = true))) := by
  simp [Addr.Less]

theorem Addr.lessOrEq_refl (a : Addr) : a.lessOrEq a = true := by
  rw [Addr.lessOrEq_iff]
  exact Or.inr ⟨rfl, Or.inr ⟨rfl, textLess_irrefl _⟩⟩

theorem Addr.BitLen_le_of_lessOrEq {a b : Addr} (h : a.lessOrEq b = true) :
    a.BitLen ≤ b.BitLen := by
  rw [Addr.lessOrEq_iff] at h
  omega

theorem Addr.lessOrEq_trans {a b c : Addr} (h1 : a.lessOrEq b = true)
    (h2 : b.lessOrEq c = true) : a.lessOrEq c = true := by
  rw [Addr.lessOrEq_iff] at *
  rcases h1 with h | ⟨hb, h | ⟨hv, hz⟩⟩ <;> rcases h2 with g | ⟨gb, g | ⟨gv, gz⟩⟩
  · exact Or.inl (by omega)
  · exact Or.inl (by omega)
  · exact Or.inl (by omega)
  · exact Or.inl (by omega)
  · exact Or.inr ⟨by omega, Or.inl (by omega)⟩
  · exact Or.inr ⟨by omega, Or.inl (by omega)⟩
  · exact Or.inl (by omega)
  · exact Or.inr ⟨by omega, Or.inl (by omega)⟩
  · exact Or.inr ⟨by omega, Or.inr ⟨by omega, textLess_le_trans hz gz⟩⟩

theorem Addr.lessOrEq_of_Less {a b : Addr} (h : a.Less b = true) : a.lessOrEq b = true := by
  rw [Addr.Less_iff] at h
  rw [Addr.lessOrEq_iff]
  rcases h with h | ⟨hb, h | ⟨hv, hz⟩⟩
  · exact Or.inl h
  · exact Or.inr ⟨hb, Or.inl h⟩
  · exact Or.inr ⟨hb, Or.inr ⟨hv, textLess_asymm hz⟩⟩

theorem Addr.lessOrEq_of_not_Less {a b : Addr} (h : a.Less b = false) :
    b.lessOrEq a = true := by
  have h2 : ¬ (a.Less b = true) := by simp [h]
  rw [Addr.Less_iff] at h2
  rw [Addr.lessOrEq_iff]
  by_cases hb : b.BitLen < a.BitLen
  · exact Or.inl hb
  · have hbe : b.BitLen = a.BitLen := by
      by_contra hne
      exact h2 (Or.inl (by omega))
    refine Or.inr ⟨hbe, ?_⟩
    by_cases hv : b.val < a.val
    · exact Or.inl hv
    · have hve : b.val = a.val := by
        by_contra hne
        exact h2 (Or.inr ⟨hbe.symm, Or.inl (by omega)⟩)
      refine Or.inr ⟨hve, ?_⟩
      cases hz : textLess a.zone.data b.zone.data with
      | false => rfl
      | true => exact absurd (Or.inr ⟨hbe.symm, Or.inr ⟨hve.symm, hz⟩⟩) h2

theorem Addr.not_Less_of_lessOrEq {a b : Addr} (h : a.lessOrEq b = true) :
    b.Less a = false := by
  cases hl : b.Less a with
  | false => rfl
  | true =>
    rw [Addr.Less_iff] at hl
    rw [Addr.lessOrEq_iff] at h
    rcases h with h | ⟨hb, h | ⟨hv, hz⟩⟩ <;> rcases hl with g | ⟨gb, g | ⟨gv, gz⟩⟩ <;>
      first
        | omega
        | (rw [hz] at gz; cases gz)

theorem Addr.BitLen_inj {a b : Addr} (h : a.BitLen = b.BitLen) : a.Is6 = b.Is6 := by
  rcases a with ⟨_ | _, av, az⟩ <;> rcases b with ⟨_ | _, bv, bz⟩ <;>
    simp [Addr.BitLen] at h ⊢

theorem Addr.lessOrEq_antisymm {a b : Addr} (h1 : a.lessOrEq b = true)
    (h2 : b.lessOrEq a = true) : a = b := by
  rw [Addr.lessOrEq_iff] at h1 h2
  have hb : a.BitLen = b.BitLen := by omega
  have hv : a.val = b.val := by omega
  have hz : a.zone = b.zone := by
    rcases h1 with h | ⟨-, h | ⟨-, hz1⟩⟩
    · omega
    · omega
    · rcases h2 with g | ⟨-, g | ⟨-, hz2⟩⟩
      · omega
      · omega
      · exact String.ext (textLess_total hz2 hz1)
  have h6 := Addr.BitLen_inj hb
  cases a; cases b; simp_all

/-- Order of two addresses of one family without zone: the order of their values. -/
theorem Addr.lessOrEq_same (b : Bool) (x y : Nat) :
    (⟨b, x, ""⟩ : Addr).lessOrEq ⟨b, y, ""⟩ = true ↔ x ≤ y := by
  rw [Addr.lessOrEq_iff]
  have : textLess ("" : String).data ("" : String).data = false := rfl
  simp only [Addr.BitLen, lt_self_iff_false, true_and, false_or, this, and_true]
  omega

/-! ## Sorting and merging keep the lowest address first -/

theorem IPRange.From_le_of_less {r x : IPRange} (h : r.less x = true) :
    r.From.lessOrEq x.From = true := by
  unfold IPRange.less at h
  split at h
  · rename_i he; rw [he]; exact Addr.lessOrEq_refl _
  · exact Addr.lessOrEq_of_Less h

theorem IPRange.From_le_of_not_less {r x : IPRange} (h : r.less x = false) :
    x.From.lessOrEq r.From = true := by
  unfold IPRange.less at h
  split at h
  · rename_i he; rw [he]; exact Addr.lessOrEq_refl _
  · exact Addr.lessOrEq_of_not_Less h

theorem mem_insertRange (r x : IPRange) (l : List IPRange) :
    x ∈ insertRange r l ↔ x = r ∨ x ∈ l := by
  induction l with
  | nil => simp [insertRange]
  | cons y ys ih =>
    unfold insertRange
    split
    · simp
    · simp only [List.mem_cons, ih]; tauto

theorem HeadLowest_insertRange (r : IPRange) (l : List IPRange) (h : HeadLowest l) :
    HeadLowest (insertRange r l) := by
  cases l with
  | nil => simp [insertRange, HeadLowest]
  | cons y ys =>
    unfold insertRange
    cases hl : r.less y with
    | true =>
      simp only [if_true, HeadLowest]
      intro x hx
      have hry := IPRange.From_le_of_less hl
      rcases List.mem_cons.mp hx with rfl | hx
      · exact hry
      · exact Addr.lessOrEq_trans hry (h x hx)
    | false =>
      simp only [Bool.false_eq_true, if_false, HeadLowest]
      intro x hx
      rcases (mem_insertRange r x ys).mp hx with rfl | hx
      · exact IPRange.From_le_of_not_less hl
      · exact h x hx

theorem mem_sortRanges (x : IPRange) (rr : List IPRange) : x ∈ sortRanges rr ↔ x ∈ rr := by
  induction rr with
  | nil => simp [sortRanges]
  | cons y ys ih =>
    have : sortRanges (y :: ys) = insertRange y (sortRanges ys) := rfl
    rw [this, mem_insertRange, ih]; simp

theorem HeadLowest_sortRanges (rr : List IPRange) : HeadLowest (sortRanges rr) := by
  induction rr with
  | nil => simp [sortRanges, HeadLowest]
  | cons y ys ih => exact HeadLowest_insertRange y _ ih

theorem mergeFrom_head (prev : IPRange) (rs : List IPRange) :
    ∃ hi rest, mergeFrom prev rs = ⟨prev.From, hi⟩ :: rest := by
  induction rs generalizing prev with
  | nil => exact ⟨prev.To, [], rfl⟩
  | cons r rs ih =>
    unfold mergeFrom
    split
    · exact ih ⟨prev.From, r.To⟩
    · split
      · exact ⟨prev.To, mergeFrom r rs, rfl⟩
      · split
        · exact ih ⟨prev.From, r.To⟩
        · exact ih prev

/-- The first range of a merged list starts at the lowest From of the ranges given. -/
theorem mergeIPRanges_head (rr : List IPRange) (hne : rr ≠ []) :
    ∃ first rest, mergeIPRanges rr = first :: rest ∧
      (∃ r ∈ rr, r.From = first.From) ∧ ∀ r ∈ rr, first.From.lessOrEq r.From = true := by
  unfold mergeIPRanges
  have hmem := fun x => mem_sortRanges x rr
  have hlow := HeadLowest_sortRanges rr
  cases hs : sortRanges rr with
  | nil =>
    cases rr with
    | nil => exact absurd rfl hne
    | cons y ys =>
      have := (hmem y).mpr (List.mem_cons_self _ _)
      rw [hs] at this; simp at this
  | cons h t =>
    rw [hs] at hlow
    obtain ⟨hi, rest, hm⟩ := mergeFrom_head h t
    refine ⟨⟨h.From, hi⟩, rest, hm, ⟨h, ?_, rfl⟩, ?_⟩
    · exact (hmem h).mp (by rw [hs]; exact List.mem_cons_self _ _)
    · intro r hr
      have hr2 : r ∈ h :: t := by rw [← hs]; exact (hmem r).mpr hr
      rcases List.mem_cons.mp hr2 with rfl | hr3
      · exact Addr.lessOrEq_refl _
      · exact hlow r hr3

theorem mergeIPRanges_single (r : IPRange) : mergeIPRanges [r] = [r] := rfl

/-! ## The parser and the helpers -/

theorem RangeOfPrefix_valid {p : Prefix} {r : IPRange} (h : RangeOfPrefix p = some r) :
    r.IsValid = true := by
  unfold RangeOfPrefix at h
  split at h
  · simp only [Option.some.injEq] at h
    subst h
    have hle : p.Masked.lessOrEq (PrefixLastIP p) = true :=
      (Addr.lessOrEq_same _ _ _).mpr (Nat.le_add_right _ _)
    simp only [IPRange.IsValid, Addr.not_Less_of_lessOrEq hle, Bool.and_eq_true, beq_iff_eq,
      Bool.not_false, and_true]
    exact ⟨rfl, rfl⟩
  · simp at h

theorem parse_valid {L : NetText} {s : String} {r : IPRange} (h : parse L s = .ok r) :
    r.IsValid = true := by
  unfold parse at h
  split at h
  · simp only [Except.ok.injEq] at h
    subst h
    simp [IPRange.IsValid, Addr.not_Less_of_lessOrEq (Addr.lessOrEq_refl _)]
  · split at h
    · split at h
      · rename_i hv
        simp only [Except.ok.injEq] at h
        subst h; exact hv
      · simp at h
    · split at h
      · split at h
        · rename_i hr
          simp only [Except.ok.injEq] at h
          subst h; exact RangeOfPrefix_valid hr
        · simp at h
      · simp at h

theorem AddRange_valid (b : IPSetBuilder) {r : IPRange} (h : r.IsValid = true) :
    b.AddRange r = ⟨b.ins ++ [r], b.errs⟩ := by
  simp [IPSetBuilder.AddRange, h]

theorem AddressToIPSet_of_parse_ok {L : NetText} {s : String} {r : IPRange}
    (h : parse L s = .ok r) : AddressToIPSet L s = .ok ⟨[r]⟩ := by
  unfold AddressToIPSet
  rw [h]
  simp only
  rw [AddRange_valid _ (parse_valid h)]
  simp [IPSetBuilder.IPSet, mergeIPRanges_single]

theorem AddressToIPSet_of_parse_error {L : NetText} {s e : String}
    (h : parse L s = .error e) : AddressToIPSet L s = .error e := by
  unfold AddressToIPSet
  rw [h]

theorem AddressStrParses_iff (L : NetText) (s : String) :
    AddressStrParses L s = true ↔ ∃ r, parse L s = .ok r := by
  unfold AddressStrParses
  cases h : parse L s with
  | error e => rw [AddressToIPSet_of_parse_error h]; simp
  | ok r => rw [AddressToIPSet_of_parse_ok h]; simp

/-! ## The loops -/

theorem NewPath_addresses : NewPath "spec" ["addresses"] = "spec.addresses" := by decide

theorem NewPath_pfx : NewPath "spec" ["prefix"] = "spec.prefix" := by decide

theorem NewPath_gateway : NewPath "spec" ["gateway"] = "spec.gateway" := by decide

theorem parses_eq (L : NetText) (s : String) : AddressStrParses L s = parses L s := by
  unfold parses
  cases h : parse L s with
  | error e =>
    cases hp : AddressStrParses L s with
    | false => rfl
    | true => obtain ⟨r, hr⟩ := (AddressStrParses_iff L s).mp hp; rw [h] at hr; cases hr
  | ok r => exact (AddressStrParses_iff L s).mpr ⟨r, h⟩

theorem validate_loop_eq (L : NetText) (allErrs : ErrorList) (addresses : List String) :
    validate.loop L allErrs addresses =
      allErrs ++ (addresses.filter fun s => !parses L s).map syntaxError := by
  induction addresses generalizing allErrs with
  | nil => simp [validate.loop]
  | cons a rest ih =>
    unfold validate.loop
    rw [parses_eq]
    cases h : parses L a with
    | false =>
      simp only [Bool.not_false, if_true, ih, List.filter_cons, h, List.map_cons,
        NewPath_addresses, Invalid, syntaxError, List.append_assoc, List.singleton_append]
    | true =>
      simp only [Bool.not_true, Bool.false_eq_true, if_false, ih, List.filter_cons, h]

theorem AddSet_single (b : IPSetBuilder) {r : IPRange} (h : r.IsValid = true) :
    b.AddSet ⟨[r]⟩ = ⟨b.ins ++ [r], b.errs⟩ := by
  simp [IPSetBuilder.AddSet, AddRange_valid _ h]

theorem AddressesToIPSet_loop_ok (L : NetText) (b : IPSetBuilder) (addresses : List String)
    (h : ∀ s ∈ addresses, parses L s = true) :
    AddressesToIPSet.loop L b addresses = .ok ⟨b.ins ++ rangesOf L addresses, b.errs⟩ := by
  induction addresses generalizing b with
  | nil => simp [AddressesToIPSet.loop, rangesOf]
  | cons a rest ih =>
    have ha := h a (List.mem_cons_self _ _)
    unfold parses at ha
    cases hp : parse L a with
    | error e => rw [hp] at ha; cases ha
    | ok r =>
      unfold AddressesToIPSet.loop
      rw [AddressToIPSet_of_parse_ok hp]
      simp only
      rw [AddSet_single _ (parse_valid hp), ih _ (fun s hs => h s (List.mem_cons_of_mem _ hs))]
      simp [rangesOf, hp]

theorem AddressesToIPSet_ok (L : NetText) (addresses : List String)
    (h : ∀ s ∈ addresses, parses L s = true) :
    AddressesToIPSet L addresses = .ok ⟨mergeIPRanges (rangesOf L addresses)⟩ := by
  unfold AddressesToIPSet
  rw [AddressesToIPSet_loop_ok L _ addresses h]
  simp [IPSetBuilder.IPSet]

theorem mem_rangesOf {L : NetText} {addresses : List String} {r : IPRange} :
    r ∈ rangesOf L addresses ↔ ∃ s ∈ addresses, parse L s = .ok r := by
  unfold rangesOf
  rw [List.mem_filterMap]
  constructor
  · rintro ⟨s, hs, h⟩
    refine ⟨s, hs, ?_⟩
    split at h
    · simp only [Option.some.injEq] at h; subst h; assumption
    · cases h
  · rintro ⟨s, hs, h⟩
    exact ⟨s, hs, by rw [h]⟩

theorem within_loop_eq (L : NetText) (block : IPRange) (errors : ErrorList)
    (addresses : List String) (h : ∀ s ∈ addresses, parses L s = true) :
    validateAddressesAreWithinPrefix.loop L ⟨[block]⟩ errors addresses =
      some (errors ++ membershipErrors L block addresses) := by
  induction addresses generalizing errors with
  | nil => simp [validateAddressesAreWithinPrefix.loop, membershipErrors]
  | cons a rest ih =>
    have hrest : ∀ s ∈ rest, parses L s = true := fun s hs => h s (List.mem_cons_of_mem _ hs)
    have ha := h a (List.mem_cons_self _ _)
    unfold parses at ha
    cases hp : parse L a with
    | error e => rw [hp] at ha; cases ha
    | ok r =>
      unfold validateAddressesAreWithinPrefix.loop
      rw [AddressToIPSet_of_parse_ok hp]
      have hc : IPSet.ContainsRange ⟨[block]⟩ r = r.coveredBy block := by
        simp [IPSet.ContainsRange]
      have hin : inBlock L block a = r.coveredBy block := by simp [inBlock, hp]
      simp only [IPSet.Ranges, hc]
      cases hcov : r.coveredBy block with
      | false =>
        simp only [Bool.not_false, if_true, ih _ hrest, membershipErrors, List.filter_cons,
          hin, hcov, List.map_cons, NewPath_addresses, Invalid, differentSubnet,
          List.append_assoc, List.singleton_append]
      | true =>
        simp only [Bool.not_true, Bool.false_eq_true, if_false, ih _ hrest, membershipErrors,
          List.filter_cons, hin, hcov]

theorem ParsePrefixSprintf_range {ip : Addr} {bits : Int} {p : Prefix}
    (h : ParsePrefixSprintf ip bits = some p) :
    RangeOfPrefix p = some ⟨p.Masked, PrefixLastIP p⟩ := by
  unfold ParsePrefixSprintf at h
  split at h
  · rename_i hb
    simp only [Option.some.injEq] at h
    subst h
    have : bits.toNat ≤ ip.BitLen := by omega
    simp [RangeOfPrefix, Prefix.IsValid, this]
  · cases h

theorem blockOf_none_iff (anchor : Addr) (pfx : Int) :
    blockOf anchor pfx = none ↔ ParsePrefixSprintf anchor pfx = none := by
  unfold blockOf
  cases h : ParsePrefixSprintf anchor pfx with
  | none => simp
  | some p => simp [ParsePrefixSprintf_range h]

theorem IsLowestAddress_unique {L : NetText} {addresses : List String} {a b : Addr}
    (ha : IsLowestAddress L addresses a) (hb : IsLowestAddress L addresses b) : a = b := by
  obtain ⟨⟨r, hr, rfl⟩, hla⟩ := ha
  obtain ⟨⟨q, hq, rfl⟩, hlb⟩ := hb
  exact Addr.lessOrEq_antisymm (hla q hq) (hlb r hr)

theorem validatePrefix_eq (L : NetText) (spec : InClusterIPPoolSpec)
    (hne : spec.Addresses ≠ []) (h : ∀ s ∈ spec.Addresses, parses L s = true) :
    ∃ anchor, IsLowestAddress L spec.Addresses anchor ∧
      validatePrefix L spec = some
        (match blockOf anchor spec.Prefix with
         | none => (⟨[]⟩, [prefixNotValid spec.Prefix])
         | some block => (⟨[block]⟩, [])) := by
  have hrne : rangesOf L spec.Addresses ≠ [] := by
    cases hl : spec.Addresses with
    | nil => exact absurd hl hne
    | cons a rest =>
      have ha := h a (by rw [hl]; exact List.mem_cons_self _ _)
      unfold parses at ha
      cases hp : parse L a with
      | error e => rw [hp] at ha; cases ha
      | ok r => simp [rangesOf, hp]
  obtain ⟨first, rest, hm, ⟨r0, hr0, hr0f⟩, hlow⟩ := mergeIPRanges_head _ hrne
  refine ⟨first.From, ⟨⟨r0, hr0, hr0f⟩, hlow⟩, ?_⟩
  · unfold validatePrefix
    rw [AddressesToIPSet_ok L _ h]
    simp only [IPSet.Ranges, hm]
    unfold blockOf
    cases hpp : ParsePrefixSprintf first.From spec.Prefix with
    | none => simp [NewPath_pfx, Invalid, prefixNotValid]
    | some p =>
      have hr := ParsePrefixSprintf_range hpp
      simp only [hr]
      have hv := RangeOfPrefix_valid hr
      simp [IPSetBuilder.AddPrefix, hr, hv, AddRange_valid, IPSetBuilder.IPSet,
        mergeIPRanges_single]

theorem validateAddressesAreWithinPrefix_eq (L : NetText) (spec : InClusterIPPoolSpec)
    (hne : spec.Addresses ≠ []) (h : ∀ s ∈ spec.Addresses, parses L s = true) :
    ∃ anchor, IsLowestAddress L spec.Addresses anchor ∧
      validateAddressesAreWithinPrefix L spec = some
        (match blockOf anchor spec.Prefix with
         | none => [prefixNotValid spec.Prefix]
         | some block => membershipErrors L block spec.Addresses) := by
  obtain ⟨anchor, hlow, hvp⟩ := validatePrefix_eq L spec hne h
  refine ⟨anchor, hlow, ?_⟩
  unfold validateAddressesAreWithinPrefix
  rw [hvp]
  cases hb : blockOf anchor spec.Prefix with
  | none => simp
  | some block => simp [within_loop_eq L block [] _ h]

theorem syntaxPhaseErrors_nil_iff (L : NetText) (spec : InClusterIPPoolSpec) :
    syntaxPhaseErrors L spec = [] ↔
      spec.Addresses ≠ [] ∧ spec.Prefix ≠ 0 ∧
      (spec.Gateway = "" ∨ ∃ ip, L.ParseAddr spec.Gateway = .ok ip) ∧
      ∀ s ∈ spec.Addresses, parses L s = true := by
  unfold syntaxPhaseErrors requiredFieldErrors gatewayErrors syntaxErrors
  simp only [List.append_eq_nil, List.map_eq_nil_iff, List.filter_eq_nil_iff]
  constructor
  · rintro ⟨⟨⟨h1, h2⟩, h3⟩, h4⟩
    refine ⟨?_, ?_, ?_, ?_⟩
    · intro he; simp [he] at h1
    · intro he; simp [he] at h2
    · by_cases hg : spec.Gateway = ""
      · exact Or.inl hg
      · right
        simp only [hg, if_false] at h3
        cases hp : L.ParseAddr spec.Gateway with
        | ok ip => exact ⟨ip, rfl⟩
        | error e => rw [hp] at h3; simp at h3
    · intro s hs
      have := h4 s hs
      simpa using this
  · rintro ⟨h1, h2, h3, h4⟩
    refine ⟨⟨⟨by simp [h1], by simp [h2]⟩, ?_⟩, ?_⟩
    · rcases h3 with hg | ⟨ip, hip⟩
      · simp [hg]
      · simp [hip]
    · intro s hs
      simp [h4 s hs]

theorem validate_eq (L : NetText) (old : Option GenericInClusterPool)
    (pool : GenericInClusterPool) :
    validate L old pool =
      if syntaxPhaseErrors L pool.Spec = [] then
        (validateAddressesAreWithinPrefix L pool.Spec).map (validate.deferred pool)
      else some (validate.deferred pool (syntaxPhaseErrors L pool.Spec)) := by
  have hpre : validate.loop L
      ((([] : ErrorList) ++
        (if pool.Spec.Addresses.length = 0 then
          [Invalid (NewPath "spec" ["addresses"]) (.strs pool.Spec.Addresses)
            "addresses is required"] else []) ++
        (if pool.Spec.Prefix = 0 then
          [Invalid (NewPath "spec" ["prefix"]) (.int pool.Spec.Prefix)
            "a valid prefix is required"] else [])) ++
        (if pool.Spec.Gateway ≠ "" then
          match L.ParseAddr pool.Spec.Gateway with
          | .error err => [Invalid (NewPath "spec" ["gateway"]) (.str pool.Spec.Gateway) err]
          | .ok _ => []
        else [])) pool.Spec.Addresses = syntaxPhaseErrors L pool.Spec := by
    rw [validate_loop_eq]
    unfold syntaxPhaseErrors requiredFieldErrors gatewayErrors syntaxErrors
    simp only [NewPath_addresses, NewPath_pfx, NewPath_gateway, Invalid, addressesRequired,
      prefixRequired, gatewayError, List.nil_append, List.length_eq_zero, ne_eq, ite_not]
    congr 2
    by_cases hg : pool.Spec.Gateway = ""
    · simp [hg]
    · simp only [hg, if_false]
      cases L.ParseAddr pool.Spec.Gateway <;> rfl
  have hacc : validate L old pool =
      if (syntaxPhaseErrors L pool.Spec).length = 0 then
        match validateAddressesAreWithinPrefix L pool.Spec with
        | none => none
        | some errs =>
          if errs.length ≠ 0 then
            some (validate.deferred pool (syntaxPhaseErrors L pool.Spec ++ errs))
          else some (validate.deferred pool (syntaxPhaseErrors L pool.Spec))
      else some (validate.deferred pool (syntaxPhaseErrors L pool.Spec)) := by
    rw [← hpre]
    unfold validate
    simp only [GenericInClusterPool.PoolSpec, List.nil_append]
    by_cases h1 : pool.Spec.Addresses.length = 0 <;> by_cases h2 : pool.Spec.Prefix = 0 <;>
      by_cases h3 : pool.Spec.Gateway = "" <;>
      simp only [h1, h2, h3, if_true, if_false, ne_eq, not_true_eq_false, not_false_eq_true,
        List.nil_append, List.append_nil] <;>
      cases L.ParseAddr pool.Spec.Gateway <;> rfl
  rw [hacc]
  by_cases hnil : syntaxPhaseErrors L pool.Spec = []
  · simp only [hnil, List.length_nil, if_true, List.nil_append]
    cases validateAddressesAreWithinPrefix L pool.Spec with
    | none => rfl
    | some errs =>
      cases errs with
      | nil => simp
      | cons e es => simp
  · have : (syntaxPhaseErrors L pool.Spec).length ≠ 0 := by
      simpa [List.length_eq_zero] using hnil
    simp [hnil, this]

/-! ## The returned error and its list -/

theorem deferred_eq_none_iff (pool : GenericInClusterPool) (errs : ErrorList) :
    validate.deferred pool errs = none ↔ errs = [] := by
  cases errs <;> simp [validate.deferred]

theorem errorList_deferred (pool : GenericInClusterPool) (errs : ErrorList) :
    errorList (validate.deferred pool errs) = errs := by
  cases errs <;> simp [validate.deferred, errorList, NewInvalid]

theorem membershipErrors_nil_iff (L : NetText) (block : IPRange) (addresses : List String) :
    membershipErrors L block addresses = [] ↔ ∀ s ∈ addresses, inBlock L block s = true := by
  simp [membershipErrors, List.filter_eq_nil_iff]

theorem parses_iff (L : NetText) (s : String) : parses L s = true ↔ ∃ r, parse L s = .ok r := by
  unfold parses
  cases parse L s <;> simp

theorem inBlock_iff_of_parses {L : NetText} {block : IPRange} {s : String}
    (h : parses L s = true) :
    inBlock L block s = true ↔ ∀ r, parse L s = .ok r → r.coveredBy block = true := by
  obtain ⟨r, hr⟩ := (parses_iff L s).mp h
  simp [inBlock, hr]

/-- The error list of validate: the errors of steps 1 to 3 when there is one, and
the result of the prefix-and-membership check otherwise. -/
theorem validate_errorList (L : NetText) (old : Option GenericInClusterPool)
    (pool : GenericInClusterPool) :
    (validate L old pool).map errorList =
      if syntaxPhaseErrors L pool.Spec = [] then validateAddressesAreWithinPrefix L pool.Spec
      else some (syntaxPhaseErrors L pool.Spec) := by
  rw [validate_eq]
  split
  · cases validateAddressesAreWithinPrefix L pool.Spec with
    | none => rfl
    | some errs => simp [errorList_deferred]
  · simp [errorList_deferred]

/-! ## The claims -/

/-- C1: validate returns no error, that is the empty error list, if and only if
the addresses list is non-empty, the prefix is not 0, the gateway is empty or parses
as a bare address, every entry parses as a single IP, a hyphenated range or a CIDR
block, the lowest address over all entries with the prefix is a valid network, and
the range of every entry lies entirely inside the block of that network. -/
theorem validate_nil_iff (L : NetText) (old : Option GenericInClusterPool)
    (pool : GenericInClusterPool) :
    validate L old pool = some none ↔
      pool.Spec.Addresses ≠ [] ∧ pool.Spec.Prefix ≠ 0 ∧
      (pool.Spec.Gateway = "" ∨ ∃ ip, L.ParseAddr pool.Spec.Gateway = .ok ip) ∧
      (∀ s ∈ pool.Spec.Addresses, ∃ r, parse L s = .ok r) ∧
      ∃ anchor block, IsLowestAddress L pool.Spec.Addresses anchor ∧
        blockOf anchor pool.Spec.Prefix = some block ∧
        ∀ s ∈ pool.Spec.Addresses, ∀ r, parse L s = .ok r → r.coveredBy block = true := by
  rw [validate_eq]
  by_cases hnil : syntaxPhaseErrors L pool.Spec = []
  · obtain ⟨h1, h2, h3, h4⟩ := (syntaxPhaseErrors_nil_iff L pool.Spec).mp hnil
    have h4r : ∀ s ∈ pool.Spec.Addresses, ∃ r, parse L s = .ok r :=
      fun s hs => (parses_iff L s).mp (h4 s hs)
    obtain ⟨anchor, hlow, hw⟩ := validateAddressesAreWithinPrefix_eq L pool.Spec h1 h4
    simp only [hnil, if_true, hw, Option.map_some']
    constructor
    · intro h
      have hd := (deferred_eq_none_iff pool _).mp (Option.some.inj h)
      refine ⟨h1, h2, h3, h4r, anchor, ?_⟩
      cases hb : blockOf anchor pool.Spec.Prefix with
      | none => rw [hb] at hd; simp at hd
      | some block =>
        rw [hb] at hd
        refine ⟨block, hlow, rfl, ?_⟩
        intro s hs
        exact (inBlock_iff_of_parses (h4 s hs)).mp
          ((membershipErrors_nil_iff L block _).mp hd s hs)
    · rintro ⟨-, -, -, -, anchor2, block, hlow2, hb, hcov⟩
      have : anchor2 = anchor := IsLowestAddress_unique hlow2 hlow
      subst this
      rw [hb]
      simp only
      rw [(deferred_eq_none_iff pool _).mpr]
      exact (membershipErrors_nil_iff L block _).mpr
        (fun s hs => (inBlock_iff_of_parses (h4 s hs)).mpr (hcov s hs))
  · simp only [hnil, if_false]
    constructor
    · intro h
      have hd := (deferred_eq_none_iff pool _).mp (Option.some.inj h)
      exact absurd hd hnil
    · rintro ⟨h1, h2, h3, h4, -⟩
      exact absurd ((syntaxPhaseErrors_nil_iff L pool.Spec).mpr
        ⟨h1, h2, h3, fun s hs => (parses_iff L s).mpr (h4 s hs)⟩) hnil

/-- C2: when a pool spec passes the required-field, gateway and per-address syntax
checks and the lowest address over all entries with the prefix is a valid network,
validate returns exactly one different-subnet error for each entry whose range is
not inside the block of that network, in the order of the addresses list, and no
other error. -/
theorem validate_membership (L : NetText) (old : Option GenericInClusterPool)
    (pool : GenericInClusterPool) (anchor : Addr) (block : IPRange)
    (hne : pool.Spec.Addresses ≠ []) (hp : pool.Spec.Prefix ≠ 0)
    (hg : pool.Spec.Gateway = "" ∨ ∃ ip, L.ParseAddr pool.Spec.Gateway = .ok ip)
    (h4 : ∀ s ∈ pool.Spec.Addresses, parses L s = true)
    (ha : IsLowestAddress L pool.Spec.Addresses anchor)
    (hb : blockOf anchor pool.Spec.Prefix = some block) :
    (validate L old pool).map errorList =
      some ((pool.Spec.Addresses.filter fun s => !inBlock L block s).map fun s =>
        (⟨"spec.addresses", .str s,
          "provided address belongs to a different subnet than others"⟩ : FieldError)) := by
  have hnil := (syntaxPhaseErrors_nil_iff L pool.Spec).mpr ⟨hne, hp, hg, h4⟩
  obtain ⟨anchor2, hlow, hw⟩ := validateAddressesAreWithinPrefix_eq L pool.Spec hne h4
  have : anchor2 = anchor := IsLowestAddress_unique hlow ha
  subst this
  rw [validate_errorList, if_pos hnil, hw, hb]
  rfl

/-- C2 at scenario C: the anchor is 10.0.0.5, the block 10.0.0.0 to 10.0.0.255, and
the only error is the one of 10.0.1.5. -/
theorem validate_membership_witness :
    (validate netText none poolTwoSubnets).map errorList =
      some [⟨"spec.addresses", .str "10.0.1.5",
        "provided address belongs to a different subnet than others"⟩] :=
  (validate_membership netText none poolTwoSubnets ⟨false, 167772165, ""⟩
    ⟨⟨false, 167772160, ""⟩, ⟨false, 167772415, ""⟩⟩ (by decide) (by decide) (Or.inl rfl)
    (by decide) (by decide) (by decide)).trans (by decide)

/-- C3 fails: every entry of the pool parses and the prefix-and-membership check
on its spec finds the different-subnet error of 10.0.1.5, yet with a gateway that
does not parse validate returns the gateway error alone, not the gateway error
followed by the errors of step 4. -/
theorem validate_gate_counterexample :
    poolBadGateway.Spec.Addresses ≠ [] ∧
    (∀ s ∈ poolBadGateway.Spec.Addresses, parses netText s = true) ∧
    validateAddressesAreWithinPrefix netText poolBadGateway.Spec =
      some [differentSubnet "10.0.1.5"] ∧
    (validate netText none poolBadGateway).map errorList =
      some [gatewayError "gateway" "ParseAddr(\"gateway\"): unable to parse IP"] ∧
    (validate netText none poolBadGateway).map errorList ≠
      some ([gatewayError "gateway" "ParseAddr(\"gateway\"): unable to parse IP"] ++
        [differentSubnet "10.0.1.5"]) := by
  decide

/-- C3, amended: the prefix-and-membership check is gated on steps 1 to 3
together. When any of them produced an error, the returned list is exactly the
errors of steps 1 to 3, in that order, and step 4 contributes nothing; when none
did, the returned list is exactly the result of step 4. -/
theorem validate_gate (L : NetText) (old : Option GenericInClusterPool)
    (pool : GenericInClusterPool) :
    (validate L old pool).map errorList =
      if requiredFieldErrors pool.Spec ++ gatewayErrors L pool.Spec ++
          syntaxErrors L pool.Spec = [] then
        validateAddressesAreWithinPrefix L pool.Spec
      else
        some (requiredFieldErrors pool.Spec ++ gatewayErrors L pool.Spec ++
          syntaxErrors L pool.Spec) :=
  validate_errorList L old pool

/-- C4: the error list of validate starts with the error for an empty addresses
list if the list is empty, then the error for a zero prefix if the prefix is 0, then
the error of the gateway with the message of the parser if the gateway is set and
does not parse, then one syntax error for each entry that does not parse, in the
order of the list; the number of syntax errors is the number of such entries. -/
theorem validate_starts_with (L : NetText) (old : Option GenericInClusterPool)
    (pool : GenericInClusterPool) :
    (∃ rest, (validate L old pool).map errorList = some (
      (if pool.Spec.Addresses = [] then
        [(⟨"spec.addresses", .strs pool.Spec.Addresses, "addresses is required"⟩ : FieldError)]
       else []) ++
      (if pool.Spec.Prefix = 0 then
        [(⟨"spec.prefix", .int pool.Spec.Prefix, "a valid prefix is required"⟩ : FieldError)]
       else []) ++
      (if pool.Spec.Gateway = "" then []
       else
        match L.ParseAddr pool.Spec.Gateway with
        | .ok _ => []
        | .error message =>
          [(⟨"spec.gateway", .str pool.Spec.Gateway, message⟩ : FieldError)]) ++
      ((pool.Spec.Addresses.filter fun s => !parses L s).map fun s =>
        (⟨"spec.addresses", .str s,
          "provided address is not a valid IP, range, nor CIDR"⟩ : FieldError)) ++
      rest)) ∧
    (syntaxErrors L pool.Spec).length =
      pool.Spec.Addresses.countP (fun s => !parses L s) := by
  constructor
  · have hform : (if pool.Spec.Addresses = [] then
          [(⟨"spec.addresses", .strs pool.Spec.Addresses, "addresses is required"⟩ :
            FieldError)]
         else []) ++
        (if pool.Spec.Prefix = 0 then
          [(⟨"spec.prefix", .int pool.Spec.Prefix, "a valid prefix is required"⟩ : FieldError)]
         else []) ++
        (if pool.Spec.Gateway = "" then []
         else
          match L.ParseAddr pool.Spec.Gateway with
          | .ok _ => []
          | .error message =>
            [(⟨"spec.gateway", .str pool.Spec.Gateway, message⟩ : FieldError)]) ++
        ((pool.Spec.Addresses.filter fun s => !parses L s).map fun s =>
          (⟨"spec.addresses", .str s,
            "provided address is not a valid IP, range, nor CIDR"⟩ : FieldError)) =
        syntaxPhaseErrors L pool.Spec := rfl
    rw [validate_errorList]
    by_cases hnil : syntaxPhaseErrors L pool.Spec = []
    · obtain ⟨h1, _, _, h4⟩ := (syntaxPhaseErrors_nil_iff L pool.Spec).mp hnil
      obtain ⟨anchor, _, hw⟩ := validateAddressesAreWithinPrefix_eq L pool.Spec h1 h4
      rw [if_pos hnil, hform, hnil, hw]
      exact ⟨_, rfl⟩
    · rw [if_neg hnil, hform]
      exact ⟨[], by simp⟩
  · simp [syntaxErrors, List.countP_eq_length_filter]

theorem ParsePrefixSprintf_none_iff (ip : Addr) (bits : Int) :
    ParsePrefixSprintf ip bits = none ↔
      bits < 0 ∨ (ip.BitLen : Int) < bits ∨ ip.zone ≠ "" := by
  unfold ParsePrefixSprintf
  split
  · rename_i h
    simp only [reduceCtorEq, false_iff, not_or, not_lt, ne_eq, not_not]
    exact ⟨h.2.1, h.2.2, h.1⟩
  · rename_i h
    simp only [true_iff]
    by_contra hn
    simp only [not_or, not_lt, ne_eq, not_not] at hn
    exact h ⟨hn.2.2, hn.1, hn.2.1⟩

/-- The text round trip of line 134 in the example library, at the addresses of the
examples: the rendering of an address followed by a length reads back as that
address and length, and the text of a scoped address is refused, as
ParsePrefixSprintf has it. -/
theorem ParsePrefixSprintf_text_examples :
    netText.cidrForm (netText.Sprint ⟨false, 167772165, ""⟩ ++ "/24") =
      some (⟨false, 167772165, ""⟩, 24) ∧
    ParsePrefixSprintf ⟨false, 167772165, ""⟩ 24 = some ⟨⟨false, 167772165, ""⟩, 24⟩ ∧
    netText.Sprint ⟨true, 0xfe800000000000000000000000000001, "eth0"⟩ = "fe80::1%eth0" ∧
    netText.cidrForm "fe80::1%eth0/64" = none ∧
    ParsePrefixSprintf ⟨true, 0xfe800000000000000000000000000001, "eth0"⟩ 64 = none ∧
    netText.cidrForm (netText.Sprint ⟨true, 0xfe800000000000000000000000000001, ""⟩ ++ "/64") =
      some (⟨true, 0xfe800000000000000000000000000001, ""⟩, 64) := by
  decide

/-- C5 fails as stated: the pool of the one scoped address fe80::1%eth0 with the
prefix 64 passes the required-field, gateway and per-address syntax checks, its
lowest address is that address, of the IPv6 family, and 64 is neither negative nor
above 128; yet validate reports the invalid prefix. -/
theorem validate_prefix_not_valid_counterexample :
    poolZoned.Spec.Addresses ≠ [] ∧ poolZoned.Spec.Prefix ≠ 0 ∧
    poolZoned.Spec.Gateway = "" ∧
    (∀ s ∈ poolZoned.Spec.Addresses, parses netText s = true) ∧
    IsLowestAddress netText poolZoned.Spec.Addresses
      ⟨true, 0xfe800000000000000000000000000001, "eth0"⟩ ∧
    ¬ (poolZoned.Spec.Prefix < 0 ∨
      ((⟨true, 0xfe800000000000000000000000000001, "eth0"⟩ : Addr).BitLen : Int) <
        poolZoned.Spec.Prefix) ∧
    (validate netText none poolZoned).map errorList =
      some [⟨"spec.prefix", .int 64, "provided prefix is not valid"⟩] := by
  decide

/-- C5, amended: for a pool spec that passes the required-field, gateway and
per-address syntax checks, validate reports an invalid prefix if and only if the
prefix is negative, or exceeds the bit width of the family of the lowest declared
address, or that address carries an IPv6 zone; the returned list is then exactly
the one error on spec.prefix. -/
theorem validate_prefix_not_valid (L : NetText) (old : Option GenericInClusterPool)
    (pool : GenericInClusterPool)
    (hne : pool.Spec.Addresses ≠ []) (hp : pool.Spec.Prefix ≠ 0)
    (hg : pool.Spec.Gateway = "" ∨ ∃ ip, L.ParseAddr pool.Spec.Gateway = .ok ip)
    (h4 : ∀ s ∈ pool.Spec.Addresses, parses L s = true) :
    ∃ anchor errs, IsLowestAddress L pool.Spec.Addresses anchor ∧
      (validate L old pool).map errorList = some errs ∧
      ((∃ e ∈ errs, e.Detail = "provided prefix is not valid") ↔
        (pool.Spec.Prefix < 0 ∨ (anchor.BitLen : Int) < pool.Spec.Prefix ∨
          anchor.zone ≠ "")) ∧
      ((pool.Spec.Prefix < 0 ∨ (anchor.BitLen : Int) < pool.Spec.Prefix ∨
          anchor.zone ≠ "") →
        errs = [⟨"spec.prefix", .int pool.Spec.Prefix, "provided prefix is not valid"⟩]) := by
  have hnil := (syntaxPhaseErrors_nil_iff L pool.Spec).mpr ⟨hne, hp, hg, h4⟩
  obtain ⟨anchor, hlow, hw⟩ := validateAddressesAreWithinPrefix_eq L pool.Spec hne h4
  have hv : (validate L old pool).map errorList =
      validateAddressesAreWithinPrefix L pool.Spec := by
    rw [validate_errorList, if_pos hnil]
  cases hb : blockOf anchor pool.Spec.Prefix with
  | none =>
    rw [hb] at hw
    have hcond := (ParsePrefixSprintf_none_iff _ _).mp ((blockOf_none_iff _ _).mp hb)
    refine ⟨anchor, [prefixNotValid pool.Spec.Prefix], hlow, hv.trans hw, ?_, fun _ => rfl⟩
    simp only [hcond, iff_true]
    exact ⟨_, List.mem_singleton.mpr rfl, rfl⟩
  | some block =>
    rw [hb] at hw
    have hn : ¬ (pool.Spec.Prefix < 0 ∨ (anchor.BitLen : Int) < pool.Spec.Prefix ∨
        anchor.zone ≠ "") := by
      intro h
      have := (blockOf_none_iff _ _).mpr ((ParsePrefixSprintf_none_iff _ _).mpr h)
      rw [hb] at this; cases this
    refine ⟨anchor, membershipErrors L block pool.Spec.Addresses, hlow, hv.trans hw, ?_,
      fun h => absurd h hn⟩
    simp only [hn, iff_false, not_exists, not_and]
    intro e he
    simp only [membershipErrors, List.mem_map] at he
    obtain ⟨s, -, rfl⟩ := he
    simp only [differentSubnet]
    decide

/-- C5, amended, at scenario F. -/
theorem validate_prefix_not_valid_witness :
    ∃ anchor errs, IsLowestAddress netText poolPrefix200.Spec.Addresses anchor ∧
      (validate netText none poolPrefix200).map errorList = some errs ∧
      ((∃ e ∈ errs, e.Detail = "provided prefix is not valid") ↔
        (poolPrefix200.Spec.Prefix < 0 ∨
          (anchor.BitLen : Int) < poolPrefix200.Spec.Prefix ∨ anchor.zone ≠ "")) ∧
      ((poolPrefix200.Spec.Prefix < 0 ∨
          (anchor.BitLen : Int) < poolPrefix200.Spec.Prefix ∨ anchor.zone ≠ "") →
        errs = [⟨"spec.prefix", .int poolPrefix200.Spec.Prefix,
          "provided prefix is not valid"⟩]) :=
  validate_prefix_not_valid netText none poolPrefix200 (by decide) (by decide) (Or.inl rfl)
    (by decide)

/-- C6: when any of the required-field, gateway or per-address syntax checks
produced an error, the prefix-and-membership step is not attempted: the returned
list is the errors of steps 1 to 3 and holds neither the invalid-prefix error nor a
different-subnet error. -/
theorem validate_gated_off (L : NetText) (old : Option GenericInClusterPool)
    (pool : GenericInClusterPool)
    (h : pool.Spec.Addresses = [] ∨ pool.Spec.Prefix = 0 ∨
      (pool.Spec.Gateway ≠ "" ∧ ∃ message, L.ParseAddr pool.Spec.Gateway = .error message) ∨
      ∃ s ∈ pool.Spec.Addresses, parses L s = false) :
    ∃ errs, (validate L old pool).map errorList = some errs ∧
      errs = requiredFieldErrors pool.Spec ++ gatewayErrors L pool.Spec ++
        syntaxErrors L pool.Spec ∧
      ∀ e ∈ errs,
        ¬ (e.Field = "spec.prefix" ∧ e.Detail = "provided prefix is not valid") ∧
        ¬ (e.Field = "spec.addresses" ∧
          e.Detail = "provided address belongs to a different subnet than others") := by
  have hnil : syntaxPhaseErrors L pool.Spec ≠ [] := by
    intro hn
    obtain ⟨h1, h2, h3, h4⟩ := (syntaxPhaseErrors_nil_iff L pool.Spec).mp hn
    rcases h with h | h | ⟨hg, m, hm⟩ | ⟨s, hs, hps⟩
    · exact h1 h
    · exact h2 h
    · rcases h3 with h3 | ⟨ip, hip⟩
      · exact hg h3
      · rw [hm] at hip; cases hip
    · rw [h4 s hs] at hps; cases hps
  refine ⟨_, ?_, rfl, ?_⟩
  · rw [validate_errorList, if_neg hnil]; rfl
  · intro e he
    simp only [List.mem_append] at he
    rcases he with (he | he) | he
    · unfold requiredFieldErrors at he
      simp only [List.mem_append] at he
      rcases he with he | he
      · split at he
        · rw [List.mem_singleton] at he; subst he
          simp only [addressesRequired]; decide
        · cases he
      · split at he
        · rw [List.mem_singleton] at he; subst he
          simp only [prefixRequired]; decide
        · cases he
    · unfold gatewayErrors at he
      split at he
      · cases he
      · split at he
        · cases he
        · rw [List.mem_singleton] at he; subst he
          simp only [gatewayError]
          exact ⟨fun h => absurd h.1 (by decide), fun h => absurd h.1 (by decide)⟩
    · simp only [syntaxErrors, List.mem_map] at he
      obtain ⟨s, -, rfl⟩ := he
      simp only [syntaxError]; decide

/-- C6 at a pool whose entries that parse lie in different subnets. -/
theorem validate_gated_off_witness :
    ∃ errs, (validate netText none poolBadEntry).map errorList = some errs ∧
      errs = requiredFieldErrors poolBadEntry.Spec ++ gatewayErrors netText poolBadEntry.Spec ++
        syntaxErrors netText poolBadEntry.Spec ∧
      ∀ e ∈ errs,
        ¬ (e.Field = "spec.prefix" ∧ e.Detail = "provided prefix is not valid") ∧
        ¬ (e.Field = "spec.addresses" ∧
          e.Detail = "provided address belongs to a different subnet than others") :=
  validate_gated_off netText none poolBadEntry
    (Or.inr (Or.inr (Or.inr ⟨"not-an-ip", by decide, by decide⟩)))

/-- Called on a spec without addresses, validatePrefix panics: the guard of
validate is what keeps `Ranges()[0]` safe. -/
theorem validatePrefix_panics_without_addresses (L : NetText) (p : Int) (g : String) :
    validatePrefix L ⟨[], p, g⟩ = none := rfl

/-- C7: validate never panics. It returns on every pool, and whenever it reaches
the prefix-and-membership step (steps 1 to 3 found no error) the set built from all
addresses has a first range and the set built from each entry has a first range. -/
theorem validate_no_panic (L : NetText) (old : Option GenericInClusterPool)
    (pool : GenericInClusterPool) :
    (∃ err, validate L old pool = some err) ∧
    (requiredFieldErrors pool.Spec ++ gatewayErrors L pool.Spec ++
        syntaxErrors L pool.Spec = [] →
      pool.Spec.Addresses ≠ [] ∧
      (∃ set first rest, AddressesToIPSet L pool.Spec.Addresses = .ok set ∧
        set.Ranges = first :: rest) ∧
      ∀ s ∈ pool.Spec.Addresses, ∃ set first rest,
        AddressToIPSet L s = .ok set ∧ set.Ranges = first :: rest) := by
  constructor
  · rw [validate_eq]
    by_cases hnil : syntaxPhaseErrors L pool.Spec = []
    · obtain ⟨h1, _, _, h4⟩ := (syntaxPhaseErrors_nil_iff L pool.Spec).mp hnil
      obtain ⟨anchor, _, hw⟩ := validateAddressesAreWithinPrefix_eq L pool.Spec h1 h4
      rw [if_pos hnil, hw]
      exact ⟨_, rfl⟩
    · rw [if_neg hnil]
      exact ⟨_, rfl⟩
  · intro hnil
    obtain ⟨h1, _, _, h4⟩ := (syntaxPhaseErrors_nil_iff L pool.Spec).mp hnil
    refine ⟨h1, ?_, ?_⟩
    · have hrne : rangesOf L pool.Spec.Addresses ≠ [] := by
        cases hl : pool.Spec.Addresses with
        | nil => exact absurd hl h1
        | cons a rest =>
          obtain ⟨r, hr⟩ := (parses_iff L a).mp (h4 a (by rw [hl]; exact List.mem_cons_self _ _))
          simp [rangesOf, hr]
      obtain ⟨first, rest, hm, -⟩ := mergeIPRanges_head _ hrne
      exact ⟨_, first, rest, AddressesToIPSet_ok L _ h4, hm⟩
    · intro s hs
      obtain ⟨r, hr⟩ := (parses_iff L s).mp (h4 s hs)
      exact ⟨_, r, [], AddressToIPSet_of_parse_ok hr, rfl⟩

/-- C7 at scenario E: the step is reached and both index expressions are safe. -/
theorem validate_no_panic_witness :
    poolRange.Spec.Addresses ≠ [] ∧
    (∃ set first rest, AddressesToIPSet netText poolRange.Spec.Addresses = .ok set ∧
      set.Ranges = first :: rest) ∧
    ∀ s ∈ poolRange.Spec.Addresses, ∃ set first rest,
      AddressToIPSet netText s = .ok set ∧ set.Ranges = first :: rest :=
  (validate_no_panic netText none poolRange).2 (by decide)

/-- C8: the gateway is exempt from the containment rule. For two gateway values
that are each empty or a bare address, of either family, inside or outside the
subnet, validate returns the same result. -/
theorem validate_gateway_exempt (L : NetText) (old : Option GenericInClusterPool)
    (kind name : String) (addresses : List String) (pfx : Int) (g1 g2 : String)
    (h1 : g1 = "" ∨ ∃ ip, L.ParseAddr g1 = .ok ip)
    (h2 : g2 = "" ∨ ∃ ip, L.ParseAddr g2 = .ok ip) :
    validate L old ⟨kind, name, ⟨addresses, pfx, g1⟩⟩ =
      validate L old ⟨kind, name, ⟨addresses, pfx, g2⟩⟩ := by
  have hg : ∀ g, (g = "" ∨ ∃ ip, L.ParseAddr g = .ok ip) →
      syntaxPhaseErrors L ⟨addresses, pfx, g⟩ =
        requiredFieldErrors ⟨addresses, pfx, ""⟩ ++ syntaxErrors L ⟨addresses, pfx, ""⟩ := by
    intro g h
    have : gatewayErrors L ⟨addresses, pfx, g⟩ = [] := by
      unfold gatewayErrors
      rcases h with h | ⟨ip, hip⟩
      · simp [h]
      · simp [hip]
    unfold syntaxPhaseErrors
    rw [this]
    simp [requiredFieldErrors, syntaxErrors]
  rw [validate_eq, validate_eq]
  simp only [hg g1 h1, hg g2 h2]
  rfl

/-- C8 at scenario E: no gateway, the gateway 10.0.0.1 inside the subnet, and in
the second part an IPv6 gateway outside of it, give the same result. -/
theorem validate_gateway_exempt_witness :
    validate netText none ⟨"InClusterIPPool", "pool", ⟨["10.0.0.1-10.0.0.10"], 28, ""⟩⟩ =
      validate netText none
        ⟨"InClusterIPPool", "pool", ⟨["10.0.0.1-10.0.0.10"], 28, "fe80::1"⟩⟩ :=
  validate_gateway_exempt netText none "InClusterIPPool" "pool" ["10.0.0.1-10.0.0.10"] 28
    "" "fe80::1" (Or.inl rfl) (Or.inr ⟨⟨true, 0xfe800000000000000000000000000001, ""⟩, by rfl⟩)

theorem div_mul_eq_sub_mod (v m : Nat) : v / m * m = v - v % m := by
  have h := Nat.div_add_mod v m
  rw [Nat.mul_comm] at h
  omega

/-- C9 fails as stated: fe80::2%eth1 is a single plain address, netip.ParseAddr
reads it as an IPv6 address, and the prefix 128 is between 1 and the bit width; yet
validate does not return the empty list, it reports the invalid prefix. -/
theorem validate_single_address_counterexample :
    netText.ParseAddr "fe80::2%eth1" =
      .ok ⟨true, 0xfe800000000000000000000000000002, "eth1"⟩ ∧
    (1 : Int) ≤ 128 ∧
    (128 : Int) ≤ ((⟨true, 0xfe800000000000000000000000000002, "eth1"⟩ : Addr).BitLen : Int) ∧
    validate netText none poolZonedHost ≠ some none ∧
    (validate netText none poolZonedHost).map errorList =
      some [⟨"spec.prefix", .int 128, "provided prefix is not valid"⟩] :=
  ⟨by rfl, by decide, by decide, by decide, by decide⟩

/-- C9, amended: a pool of a single plain address `a` without IPv6 zone, with a
prefix between 1 and the bit width of the family of `a` and no gateway, is valid.
The subnet derived is the block whose first address is `a` with all but its top
bits cleared, and `a` lies in it. -/
theorem validate_single_address (L : NetText) (old : Option GenericInClusterPool)
    (kind name s : String) (a : Addr) (p : Int)
    (hs : L.ParseAddr s = .ok a) (hz : a.zone = "")
    (hp1 : 1 ≤ p) (hp2 : p ≤ (a.BitLen : Int)) :
    validate L old ⟨kind, name, ⟨[s], p, ""⟩⟩ = some none ∧
    ∃ network last : Addr,
      validatePrefix L ⟨[s], p, ""⟩ = some (⟨[⟨network, last⟩]⟩, []) ∧
      network = ⟨a.Is6, a.val - a.val % 2 ^ (a.BitLen - p.toNat), ""⟩ ∧
      last = ⟨a.Is6, network.val + (2 ^ (a.BitLen - p.toNat) - 1), ""⟩ ∧
      network.lessOrEq a = true ∧ a.lessOrEq last = true := by
  obtain ⟨b, v, z⟩ := a
  simp only at hz
  subst hz
  have hparse : parse L s = .ok ⟨⟨b, v, ""⟩, ⟨b, v, ""⟩⟩ := by simp [parse, hs]
  have hall : ∀ t ∈ [s], parses L t = true := by
    intro t ht
    rw [List.mem_singleton] at ht
    subst ht
    exact (parses_iff L _).mpr ⟨_, hparse⟩
  have hlow : IsLowestAddress L [s] ⟨b, v, ""⟩ := by
    simp [IsLowestAddress, rangesOf, hparse, Addr.lessOrEq_refl]
  have hpp : ParsePrefixSprintf ⟨b, v, ""⟩ p = some ⟨⟨b, v, ""⟩, p.toNat⟩ := by
    simp only [ParsePrefixSprintf, ite_eq_left_iff, reduceCtorEq, imp_false, not_not,
      true_and]
    omega
  have hblock : blockOf ⟨b, v, ""⟩ p =
      some ⟨(⟨⟨b, v, ""⟩, p.toNat⟩ : Prefix).Masked, PrefixLastIP ⟨⟨b, v, ""⟩, p.toNat⟩⟩ := by
    unfold blockOf
    rw [hpp]
    exact ParsePrefixSprintf_range hpp
  have hnet : (⟨⟨b, v, ""⟩, p.toNat⟩ : Prefix).Masked =
      ⟨b, v - v % 2 ^ ((⟨b, v, ""⟩ : Addr).BitLen - p.toNat), ""⟩ := by
    simp [Prefix.Masked, div_mul_eq_sub_mod]
  have hlast : PrefixLastIP ⟨⟨b, v, ""⟩, p.toNat⟩ =
      ⟨b, v - v % 2 ^ ((⟨b, v, ""⟩ : Addr).BitLen - p.toNat) +
        (2 ^ ((⟨b, v, ""⟩ : Addr).BitLen - p.toNat) - 1), ""⟩ := by
    simp [PrefixLastIP, div_mul_eq_sub_mod]
  have hpos : 0 < 2 ^ ((⟨b, v, ""⟩ : Addr).BitLen - p.toNat) := Nat.two_pow_pos _
  have hmod := Nat.mod_lt v hpos
  have hle := Nat.mod_le v (2 ^ ((⟨b, v, ""⟩ : Addr).BitLen - p.toNat))
  have hc1 : (⟨b, v - v % 2 ^ ((⟨b, v, ""⟩ : Addr).BitLen - p.toNat), ""⟩ :
      Addr).lessOrEq ⟨b, v, ""⟩ = true :=
    (Addr.lessOrEq_same _ _ _).mpr (Nat.sub_le _ _)
  have hc2 : (⟨b, v, ""⟩ : Addr).lessOrEq
      (⟨b, v - v % 2 ^ ((⟨b, v, ""⟩ : Addr).BitLen - p.toNat) +
        (2 ^ ((⟨b, v, ""⟩ : Addr).BitLen - p.toNat) - 1), ""⟩ : Addr) = true :=
    (Addr.lessOrEq_same _ _ _).mpr (by omega)
  constructor
  · have hnil : syntaxPhaseErrors L ⟨[s], p, ""⟩ = [] :=
      (syntaxPhaseErrors_nil_iff L _).mpr
        ⟨by simp, by simp only [ne_eq]; omega, Or.inl rfl, hall⟩
    obtain ⟨anchor, hlow2, hw⟩ :=
      validateAddressesAreWithinPrefix_eq L ⟨[s], p, ""⟩ (by simp) hall
    have : anchor = ⟨b, v, ""⟩ := IsLowestAddress_unique hlow2 hlow
    subst this
    simp only [hblock] at hw
    have hin : membershipErrors L
        ⟨(⟨⟨b, v, ""⟩, p.toNat⟩ : Prefix).Masked, PrefixLastIP ⟨⟨b, v, ""⟩, p.toNat⟩⟩ [s] =
          [] := by
      rw [membershipErrors_nil_iff]
      intro t ht
      rw [List.mem_singleton] at ht
      subst ht
      rw [hnet, hlast]
      simp [inBlock, hparse, IPRange.coveredBy, hc1, hc2]
    rw [validate_eq]
    simp only [hnil, if_true, hw, hin, Option.map_some']
    rfl
  · obtain ⟨anchor, hlow2, hvp⟩ := validatePrefix_eq L ⟨[s], p, ""⟩ (by simp) hall
    have : anchor = ⟨b, v, ""⟩ := IsLowestAddress_unique hlow2 hlow
    subst this
    simp only [hblock] at hvp
    refine ⟨_, _, hvp, hnet, ?_, ?_, ?_⟩
    · rw [hlast, hnet]
    · rw [hnet]; exact hc1
    · rw [hlast]; exact hc2

/-- C9, amended, at scenario A: 10.0.0.5 with prefix 24 is valid and the subnet
derived is 10.0.0.0/24, the block from 10.0.0.0 to 10.0.0.255. -/
theorem validate_single_address_witness :
    validate netText none ⟨"InClusterIPPool", "pool", ⟨["10.0.0.5"], 24, ""⟩⟩ = some none ∧
    validatePrefix netText ⟨["10.0.0.5"], 24, ""⟩ =
      some (⟨[⟨⟨false, 167772160, ""⟩, ⟨false, 167772415, ""⟩⟩]⟩, []) :=
  ⟨(validate_single_address netText none "InClusterIPPool" "pool" "10.0.0.5"
      ⟨false, 167772165, ""⟩ 24 (by rfl) rfl (by decide) (by decide)).1, by decide⟩

/-- C10: validate does not use the prior version of the object. For two old pools
ValidateUpdate returns the same result on a new pool, and that result is the one of
ValidateCreate on the new pool. -/
theorem ValidateUpdate_ignores_old (L : NetText) (old1 old2 newPool : GenericInClusterPool) :
    ValidateUpdate L (.pool old1) (.pool newPool) = ValidateUpdate L (.pool old2) (.pool newPool) ∧
    ValidateUpdate L (.pool old1) (.pool newPool) = ValidateCreate L (.pool newPool) :=
  ⟨rfl, rfl⟩

theorem AddPrefix_IPSet_ok (L : NetText) {ip : Addr} {bits : Int} {pfx : Prefix}
    (h : ParsePrefixSprintf ip bits = some pfx) :
    (IPSetBuilder.AddPrefix {} pfx).IPSet L = .ok ⟨[⟨pfx.Masked, PrefixLastIP pfx⟩]⟩ := by
  have hr := ParsePrefixSprintf_range h
  have hv := RangeOfPrefix_valid hr
  simp [IPSetBuilder.AddPrefix, hr, hv, AddRange_valid, IPSetBuilder.IPSet,
    mergeIPRanges_single]

/-- C11: the defensive branches are unreachable from validate. On every pool on
which validate reaches the prefix-and-membership step, building the range set over
all addresses does not fail, converting a parsed prefix into a range set does not
fail, and parsing each entry again does not fail; every error returned is the
invalid-prefix error or the different-subnet error of an entry, so none is the
syntax error and none comes from a defensive branch. -/
theorem defensive_branches_unreachable (L : NetText) (old : Option GenericInClusterPool)
    (pool : GenericInClusterPool)
    (hreach : requiredFieldErrors pool.Spec ++ gatewayErrors L pool.Spec ++
      syntaxErrors L pool.Spec = []) :
    (∃ set, AddressesToIPSet L pool.Spec.Addresses = .ok set) ∧
    (∀ ip pfx, ParsePrefixSprintf ip pool.Spec.Prefix = some pfx →
      ∃ set, (IPSetBuilder.AddPrefix {} pfx).IPSet L = .ok set) ∧
    (∀ s ∈ pool.Spec.Addresses, ∃ set, AddressToIPSet L s = .ok set) ∧
    ∃ errs, (validate L old pool).map errorList = some errs ∧
      (∀ e ∈ errs, e = prefixNotValid pool.Spec.Prefix ∨
        ∃ s ∈ pool.Spec.Addresses, e = differentSubnet s) ∧
      ∀ e ∈ errs, e.Detail ≠ "provided address is not a valid IP, range, nor CIDR" := by
  have hnil : syntaxPhaseErrors L pool.Spec = [] := hreach
  obtain ⟨h1, _, _, h4⟩ := (syntaxPhaseErrors_nil_iff L pool.Spec).mp hnil
  refine ⟨⟨_, AddressesToIPSet_ok L _ h4⟩, ?_, ?_, ?_⟩
  · intro ip pfx hp
    exact ⟨_, AddPrefix_IPSet_ok L hp⟩
  · intro s hs
    obtain ⟨r, hr⟩ := (parses_iff L s).mp (h4 s hs)
    exact ⟨_, AddressToIPSet_of_parse_ok hr⟩
  · obtain ⟨anchor, _, hw⟩ := validateAddressesAreWithinPrefix_eq L pool.Spec h1 h4
    have hv : (validate L old pool).map errorList =
        validateAddressesAreWithinPrefix L pool.Spec := by
      rw [validate_errorList, if_pos hnil]
    have hshape : ∀ errs : ErrorList,
        (∀ e ∈ errs, e = prefixNotValid pool.Spec.Prefix ∨
          ∃ s ∈ pool.Spec.Addresses, e = differentSubnet s) →
        ∀ e ∈ errs, e.Detail ≠ "provided address is not a valid IP, range, nor CIDR" := by
      intro errs h e he
      rcases h e he with rfl | ⟨s, -, rfl⟩
      · simp only [prefixNotValid]; decide
      · simp only [differentSubnet]; decide
    cases hb : blockOf anchor pool.Spec.Prefix with
    | none =>
      rw [hb] at hw
      have hsh : ∀ e ∈ [prefixNotValid pool.Spec.Prefix],
          e = prefixNotValid pool.Spec.Prefix ∨
            ∃ s ∈ pool.Spec.Addresses, e = differentSubnet s :=
        fun e he => Or.inl (List.mem_singleton.mp he)
      exact ⟨_, hv.trans hw, hsh, hshape _ hsh⟩
    | some block =>
      rw [hb] at hw
      have hsh : ∀ e ∈ membershipErrors L block pool.Spec.Addresses,
          e = prefixNotValid pool.Spec.Prefix ∨
            ∃ s ∈ pool.Spec.Addresses, e = differentSubnet s := by
        intro e he
        simp only [membershipErrors, List.mem_map, List.mem_filter] at he
        obtain ⟨s, ⟨hs, -⟩, rfl⟩ := he
        exact Or.inr ⟨s, hs, rfl⟩
      exact ⟨_, hv.trans hw, hsh, hshape _ hsh⟩

/-- C11 at scenario C, where the step is reached. -/
theorem defensive_branches_unreachable_witness :
    (∃ set, AddressesToIPSet netText poolTwoSubnets.Spec.Addresses = .ok set) ∧
    (∀ ip pfx, ParsePrefixSprintf ip poolTwoSubnets.Spec.Prefix = some pfx →
      ∃ set, (IPSetBuilder.AddPrefix {} pfx).IPSet netText = .ok set) ∧
    (∀ s ∈ poolTwoSubnets.Spec.Addresses, ∃ set, AddressToIPSet netText s = .ok set) ∧
    ∃ errs, (validate netText none poolTwoSubnets).map errorList = some errs ∧
      (∀ e ∈ errs, e = prefixNotValid poolTwoSubnets.Spec.Prefix ∨
        ∃ s ∈ poolTwoSubnets.Spec.Addresses, e = differentSubnet s) ∧
      ∀ e ∈ errs, e.Detail ≠ "provided address is not a valid IP, range, nor CIDR" :=
  defensive_branches_unreachable netText none poolTwoSubnets (by decide)

/-! ## Order of the addresses list -/

theorem filter_map_eq_filterMap {α β : Type} (q : α → Bool) (f : α → β) (l : List α) :
    (l.filter fun s => !q s).map f = l.filterMap fun s => if q s then none else some (f s) := by
  induction l with
  | nil => rfl
  | cons a rest ih =>
    cases h : q a <;> simp [List.filter_cons, List.filterMap_cons, h, ih]

theorem IsLowestAddress_perm {L : NetText} {l1 l2 : List String} (h : l1.Perm l2)
    {anchor : Addr} (ha : IsLowestAddress L l1 anchor) : IsLowestAddress L l2 anchor := by
  have hm : ∀ r, r ∈ rangesOf L l1 ↔ r ∈ rangesOf L l2 := by
    intro r
    rw [mem_rangesOf, mem_rangesOf]
    constructor
    · rintro ⟨s, hs, hp⟩; exact ⟨s, h.mem_iff.mp hs, hp⟩
    · rintro ⟨s, hs, hp⟩; exact ⟨s, h.mem_iff.mpr hs, hp⟩
  obtain ⟨⟨r, hr, hrf⟩, hlow⟩ := ha
  exact ⟨⟨r, (hm r).mp hr, hrf⟩, fun q hq => hlow q ((hm q).mpr hq)⟩

theorem syntaxPhaseErrors_nil_perm (L : NetText) {l1 l2 : List String} (h : l1.Perm l2)
    (p : Int) (g : String) (hnil : syntaxPhaseErrors L ⟨l1, p, g⟩ = []) :
    syntaxPhaseErrors L ⟨l2, p, g⟩ = [] := by
  obtain ⟨h1, h2, h3, h4⟩ := (syntaxPhaseErrors_nil_iff L _).mp hnil
  refine (syntaxPhaseErrors_nil_iff L _).mpr ⟨?_, h2, h3, ?_⟩
  · intro he
    simp only at he
    rw [he] at h
    exact h1 h.eq_nil
  · intro s hs
    exact h4 s (h.mem_iff.mpr hs)

theorem validate_none_iff_errorList (L : NetText) (old : Option GenericInClusterPool)
    (pool : GenericInClusterPool) :
    validate L old pool = some none ↔ (validate L old pool).map errorList = some [] := by
  rw [validate_eq]
  split
  · cases validateAddressesAreWithinPrefix L pool.Spec with
    | none => simp
    | some errs => simp [errorList_deferred, deferred_eq_none_iff]
  · simp [errorList_deferred, deferred_eq_none_iff]

/-- The error list of validate as errors that do not depend on the order of the
addresses, followed by the errors of the entries in the order of the list. -/
theorem validate_split (L : NetText) (old : Option GenericInClusterPool)
    (kind name : String) (l1 l2 : List String) (p : Int) (g : String) (h : l1.Perm l2) :
    ∃ (common : ErrorList) (perEntry : String → Option FieldError),
      (validate L old ⟨kind, name, ⟨l1, p, g⟩⟩).map errorList =
        some (common ++ l1.filterMap perEntry) ∧
      (validate L old ⟨kind, name, ⟨l2, p, g⟩⟩).map errorList =
        some (common ++ l2.filterMap perEntry) ∧
      (∀ s e, perEntry s = some e → e = syntaxError s ∨ e = differentSubnet s) ∧
      ∀ e ∈ common, e = addressesRequired [] ∨ e = prefixRequired p ∨
        e = prefixNotValid p ∨ ∃ message, e = gatewayError g message := by
  by_cases hnil : syntaxPhaseErrors L ⟨l1, p, g⟩ = []
  · have hnil2 := syntaxPhaseErrors_nil_perm L h p g hnil
    obtain ⟨h1, _, _, h4⟩ := (syntaxPhaseErrors_nil_iff L _).mp hnil
    obtain ⟨h1b, _, _, h4b⟩ := (syntaxPhaseErrors_nil_iff L _).mp hnil2
    obtain ⟨anchor, hlow, hw⟩ := validateAddressesAreWithinPrefix_eq L ⟨l1, p, g⟩ h1 h4
    obtain ⟨anchor2, hlow2, hw2⟩ := validateAddressesAreWithinPrefix_eq L ⟨l2, p, g⟩ h1b h4b
    have : anchor2 = anchor := IsLowestAddress_unique hlow2 (IsLowestAddress_perm h hlow)
    subst this
    rw [validate_errorList, validate_errorList]
    simp only [hnil, hnil2, if_true, hw, hw2]
    cases hb : blockOf anchor2 p with
    | none =>
      refine ⟨[prefixNotValid p], fun _ => none, ?_, ?_, ?_, ?_⟩
      · simp
      · simp
      · intro s e he; cases he
      · intro e he
        exact Or.inr (Or.inr (Or.inl (List.mem_singleton.mp he)))
    | some block =>
      refine ⟨[], fun s => if inBlock L block s then none else some (differentSubnet s),
        ?_, ?_, ?_, ?_⟩
      · simp only [membershipErrors, List.nil_append]
        rw [filter_map_eq_filterMap]
      · simp only [membershipErrors, List.nil_append]
        rw [filter_map_eq_filterMap]
      · intro s e he
        simp only at he
        split at he
        · cases he
        · exact Or.inr (Option.some.inj he).symm
      · intro e he; cases he
  · have hnil2 : syntaxPhaseErrors L ⟨l2, p, g⟩ ≠ [] :=
      fun h2 => hnil (syntaxPhaseErrors_nil_perm L h.symm p g h2)
    rw [validate_errorList, validate_errorList]
    simp only [hnil, hnil2, if_false]
    have hreq : requiredFieldErrors ⟨l2, p, g⟩ = requiredFieldErrors ⟨l1, p, g⟩ := by
      unfold requiredFieldErrors
      by_cases he : l1 = []
      · subst he
        have := h.symm.eq_nil
        subst this
        rfl
      · have he2 : l2 ≠ [] := fun h2 => he (by rw [h2] at h; exact h.eq_nil)
        simp [he, he2]
    refine ⟨requiredFieldErrors ⟨l1, p, g⟩ ++ gatewayErrors L ⟨l1, p, g⟩,
      fun s => if parses L s then none else some (syntaxError s), ?_, ?_, ?_, ?_⟩
    · simp only [syntaxPhaseErrors, syntaxErrors]
      rw [filter_map_eq_filterMap]
    · simp only [syntaxPhaseErrors, syntaxErrors, hreq]
      rw [filter_map_eq_filterMap]
      rfl
    · intro s e he
      simp only at he
      split at he
      · cases he
      · exact Or.inl (Option.some.inj he).symm
    · intro e he
      rw [List.mem_append] at he
      rcases he with he | he
      · unfold requiredFieldErrors at he
        rw [List.mem_append] at he
        rcases he with he | he
        · split at he
          · rename_i hl
            simp only at hl
            rw [List.mem_singleton] at he
            subst he
            left
            simp only [hl]
          · cases he
        · split at he
          · rw [List.mem_singleton] at he
            exact Or.inr (Or.inl he)
          · cases he
      · unfold gatewayErrors at he
        split at he
        · cases he
        · split at he
          · cases he
          · rw [List.mem_singleton] at he
            exact Or.inr (Or.inr (Or.inr ⟨_, he⟩))

/-- C12: validation does not depend on the listing order of the addresses. For a
permutation of the addresses list, with prefix and gateway unchanged, validate
returns no error on the permuted pool iff it returns none on the original; the two
error lists share the errors that are not attached to an entry (addresses required,
prefix, gateway), and the errors of the entries (syntax or different subnet) are
given by one function of the entry, listed in the order of each list. -/
theorem validate_perm (L : NetText) (old : Option GenericInClusterPool)
    (kind name : String) (l1 l2 : List String) (p : Int) (g : String) (h : l1.Perm l2) :
    (validate L old ⟨kind, name, ⟨l1, p, g⟩⟩ = some none ↔
      validate L old ⟨kind, name, ⟨l2, p, g⟩⟩ = some none) ∧
    ∃ (common : ErrorList) (perEntry : String → Option FieldError),
      (validate L old ⟨kind, name, ⟨l1, p, g⟩⟩).map errorList =
        some (common ++ l1.filterMap perEntry) ∧
      (validate L old ⟨kind, name, ⟨l2, p, g⟩⟩).map errorList =
        some (common ++ l2.filterMap perEntry) ∧
      (∀ s e, perEntry s = some e → e = syntaxError s ∨ e = differentSubnet s) ∧
      ∀ e ∈ common, e = addressesRequired [] ∨ e = prefixRequired p ∨
        e = prefixNotValid p ∨ ∃ message, e = gatewayError g message := by
  obtain ⟨common, perEntry, e1, e2, hper, hcom⟩ := validate_split L old kind name l1 l2 p g h
  refine ⟨?_, common, perEntry, e1, e2, hper, hcom⟩
  have hp : (l1.filterMap perEntry).Perm (l2.filterMap perEntry) := h.filterMap perEntry
  rw [validate_none_iff_errorList, validate_none_iff_errorList, e1, e2]
  simp only [Option.some.injEq, List.append_eq_nil]
  constructor
  · rintro ⟨hc, hf⟩
    rw [hf] at hp
    exact ⟨hc, hp.symm.eq_nil⟩
  · rintro ⟨hc, hf⟩
    rw [hf] at hp
    exact ⟨hc, hp.eq_nil⟩

/-- C12 at scenario C and the same addresses in the other order. -/
theorem validate_perm_witness :
    (validate netText none ⟨"InClusterIPPool", "pool", ⟨["10.0.0.5", "10.0.1.5"], 24, ""⟩⟩ =
        some none ↔
      validate netText none ⟨"InClusterIPPool", "pool", ⟨["10.0.1.5", "10.0.0.5"], 24, ""⟩⟩ =
        some none) ∧
    ∃ (common : ErrorList) (perEntry : String → Option FieldError),
      (validate netText none
          ⟨"InClusterIPPool", "pool", ⟨["10.0.0.5", "10.0.1.5"], 24, ""⟩⟩).map errorList =
        some (common ++ ["10.0.0.5", "10.0.1.5"].filterMap perEntry) ∧
      (validate netText none
          ⟨"InClusterIPPool", "pool", ⟨["10.0.1.5", "10.0.0.5"], 24, ""⟩⟩).map errorList =
        some (common ++ ["10.0.1.5", "10.0.0.5"].filterMap perEntry) ∧
      (∀ s e, perEntry s = some e → e = syntaxError s ∨ e = differentSubnet s) ∧
      ∀ e ∈ common, e = addressesRequired [] ∨ e = prefixRequired 24 ∨
        e = prefixNotValid 24 ∨ ∃ message, e = gatewayError "" message :=
  validate_perm netText none "InClusterIPPool" "pool" ["10.0.0.5", "10.0.1.5"]
    ["10.0.1.5", "10.0.0.5"] 24 "" (List.Perm.swap _ _ _)

theorem blockOf_BitLen {anchor : Addr} {p : Int} {block : IPRange}
    (h : blockOf anchor p = some block) :
    block.From.BitLen = anchor.BitLen ∧ block.To.BitLen = anchor.BitLen := by
  unfold blockOf at h
  cases hp : ParsePrefixSprintf anchor p with
  | none => rw [hp] at h; cases h
  | some pfx =>
    rw [hp] at h
    simp only at h
    rw [ParsePrefixSprintf_range hp] at h
    have hip : pfx.ip = anchor := by
      unfold ParsePrefixSprintf at hp
      split at hp
      · simp only [Option.some.injEq] at hp; subst hp; rfl
      · cases hp
    simp only [Option.some.injEq] at h
    subst h
    subst hip
    exact ⟨rfl, rfl⟩

theorem coveredBy_BitLen {r block : IPRange} (hv : r.IsValid = true)
    (hb : block.From.BitLen = block.To.BitLen) (hc : r.coveredBy block = true) :
    r.From.BitLen = block.From.BitLen := by
  simp only [IPRange.coveredBy, Bool.and_eq_true, Addr.lessOrEq_iff] at hc
  simp only [IPRange.IsValid, Bool.and_eq_true, beq_iff_eq] at hv
  omega

/-- C13: a pool that mixes address families is never valid. When one entry parses
to an IPv4 range and another to an IPv6 range, validate returns a non-empty error
list, whatever the prefix and the gateway are. -/
theorem validate_mixed_families (L : NetText) (old : Option GenericInClusterPool)
    (pool : GenericInClusterPool) (s4 s6 : String) (r4 r6 : IPRange)
    (h4 : s4 ∈ pool.Spec.Addresses) (h6 : s6 ∈ pool.Spec.Addresses)
    (hp4 : parse L s4 = .ok r4) (hp6 : parse L s6 = .ok r6)
    (hf4 : r4.From.Is6 = false) (hf6 : r6.From.Is6 = true) :
    ∃ errs, (validate L old pool).map errorList = some errs ∧ errs ≠ [] := by
  rw [validate_errorList]
  by_cases hnil : syntaxPhaseErrors L pool.Spec = []
  · obtain ⟨h1, _, _, hall⟩ := (syntaxPhaseErrors_nil_iff L pool.Spec).mp hnil
    obtain ⟨anchor, _, hw⟩ := validateAddressesAreWithinPrefix_eq L pool.Spec h1 hall
    rw [if_pos hnil, hw]
    cases hb : blockOf anchor pool.Spec.Prefix with
    | none => exact ⟨_, rfl, by simp⟩
    | some block =>
      refine ⟨_, rfl, ?_⟩
      simp only
      intro hm
      have hin := (membershipErrors_nil_iff L block _).mp hm
      have hc4 := (inBlock_iff_of_parses (hall s4 h4)).mp (hin s4 h4) r4 hp4
      have hc6 := (inBlock_iff_of_parses (hall s6 h6)).mp (hin s6 h6) r6 hp6
      obtain ⟨hbf, hbt⟩ := blockOf_BitLen hb
      have e4 := coveredBy_BitLen (parse_valid hp4) (hbf.trans hbt.symm) hc4
      have e6 := coveredBy_BitLen (parse_valid hp6) (hbf.trans hbt.symm) hc6
      have : r4.From.BitLen = r6.From.BitLen := e4.trans e6.symm
      simp [Addr.BitLen, hf4, hf6] at this
  · rw [if_neg hnil]
    exact ⟨_, rfl, hnil⟩

/-- C13 at a pool of 10.0.0.5 and ::1. -/
theorem validate_mixed_families_witness :
    ∃ errs, (validate netText none poolMixed).map errorList = some errs ∧ errs ≠ [] :=
  validate_mixed_families netText none poolMixed "10.0.0.5" "::1"
    ⟨⟨false, 167772165, ""⟩, ⟨false, 167772165, ""⟩⟩ ⟨⟨true, 1, ""⟩, ⟨true, 1, ""⟩⟩
    (by decide) (by decide) (by rfl) (by rfl) rfl rfl

/-! ## A single CIDR entry -/

theorem aligned_mod_add_le {A d m : Nat} (hd : d ∣ A) (hm : d ∣ m) (hpos : 0 < m) :
    A % m + d ≤ m := by
  have h1 : d ∣ A % m := (Nat.dvd_mod_iff hm).mpr hd
  have hlt : A % m < m := Nat.mod_lt _ hpos
  obtain ⟨c, hc⟩ := h1
  obtain ⟨e, he⟩ := hm
  rw [hc]
  rw [hc] at hlt
  subst he
  have hce : c < e := Nat.lt_of_mul_lt_mul_left hlt
  calc d * c + d = d * (c + 1) := by rw [Nat.mul_succ]
    _ ≤ d * e := Nat.mul_le_mul_left d hce

/-- A block aligned at `2 ^ k1` lies inside the block of its first address aligned
at `2 ^ k2` exactly when `k1 ≤ k2`. -/
theorem block_inside_iff (v k1 k2 : Nat) :
    (v / 2 ^ k1 * 2 ^ k1 / 2 ^ k2 * 2 ^ k2 ≤ v / 2 ^ k1 * 2 ^ k1 ∧
      v / 2 ^ k1 * 2 ^ k1 + (2 ^ k1 - 1) ≤
        v / 2 ^ k1 * 2 ^ k1 / 2 ^ k2 * 2 ^ k2 + (2 ^ k2 - 1)) ↔ k1 ≤ k2 := by
  have hp1 : 0 < 2 ^ k1 := Nat.two_pow_pos _
  have hp2 : 0 < 2 ^ k2 := Nat.two_pow_pos _
  have hle : v / 2 ^ k1 * 2 ^ k1 / 2 ^ k2 * 2 ^ k2 ≤ v / 2 ^ k1 * 2 ^ k1 :=
    Nat.div_mul_le_self _ _
  constructor
  · rintro ⟨-, h⟩
    by_contra hn
    have hlt : 2 ^ k2 < 2 ^ k1 := Nat.pow_lt_pow_right (by decide) (by omega)
    omega
  · intro hk
    refine ⟨hle, ?_⟩
    have hd : 2 ^ k1 ∣ v / 2 ^ k1 * 2 ^ k1 := Nat.dvd_mul_left _ _
    have hm : 2 ^ k1 ∣ 2 ^ k2 := Nat.pow_dvd_pow 2 hk
    have h := aligned_mod_add_le hd hm hp2
    have he := div_mul_eq_sub_mod (v / 2 ^ k1 * 2 ^ k1) (2 ^ k2)
    have hml := Nat.mod_le (v / 2 ^ k1 * 2 ^ k1) (2 ^ k2)
    omega

/-- C14: for a pool whose addresses list is a single entry that parses to the
block of the CIDR `addr/len`, with no gateway and a pool prefix `p` between 1 and
the bit width of the family, validate returns no error if and only if `p ≤ len`;
when `p > len` the result is exactly the different-subnet error of that entry. -/
theorem validate_single_cidr (L : NetText) (old : Option GenericInClusterPool)
    (kind name s : String) (addr : Addr) (len : Nat) (p : Int)
    (hs : parse L s = .ok ⟨Prefix.Masked ⟨addr, len⟩, PrefixLastIP ⟨addr, len⟩⟩)
    (hp1 : 1 ≤ p) (hp2 : p ≤ (addr.BitLen : Int)) :
    (validate L old ⟨kind, name, ⟨[s], p, ""⟩⟩ = some none ↔ p ≤ (len : Int)) ∧
    ((len : Int) < p →
      (validate L old ⟨kind, name, ⟨[s], p, ""⟩⟩).map errorList =
        some [⟨"spec.addresses", .str s,
          "provided address belongs to a different subnet than others"⟩]) := by
  have hall : ∀ t ∈ [s], parses L t = true := by
    intro t ht
    rw [List.mem_singleton] at ht
    subst ht
    exact (parses_iff L _).mpr ⟨_, hs⟩
  have hnil : syntaxPhaseErrors L ⟨[s], p, ""⟩ = [] :=
    (syntaxPhaseErrors_nil_iff L _).mpr
      ⟨by simp, by simp only [ne_eq]; omega, Or.inl rfl, hall⟩
  have hlow : IsLowestAddress L [s] (Prefix.Masked ⟨addr, len⟩) := by
    simp [IsLowestAddress, rangesOf, hs, Addr.lessOrEq_refl]
  have hbl : (Prefix.Masked ⟨addr, len⟩).BitLen = addr.BitLen := rfl
  have hpp : ParsePrefixSprintf (Prefix.Masked ⟨addr, len⟩) p =
      some ⟨Prefix.Masked ⟨addr, len⟩, p.toNat⟩ := by
    have hzn : (Prefix.Masked ⟨addr, len⟩).zone = "" := rfl
    simp only [ParsePrefixSprintf, hbl, hzn, true_and, ite_eq_left_iff, reduceCtorEq,
      imp_false, not_not]
    omega
  have hblock : blockOf (Prefix.Masked ⟨addr, len⟩) p =
      some ⟨(⟨Prefix.Masked ⟨addr, len⟩, p.toNat⟩ : Prefix).Masked,
        PrefixLastIP ⟨Prefix.Masked ⟨addr, len⟩, p.toNat⟩⟩ := by
    unfold blockOf
    rw [hpp]
    exact ParsePrefixSprintf_range hpp
  have hcov : inBlock L ⟨(⟨Prefix.Masked ⟨addr, len⟩, p.toNat⟩ : Prefix).Masked,
      PrefixLastIP ⟨Prefix.Masked ⟨addr, len⟩, p.toNat⟩⟩ s = true ↔ p ≤ (len : Int) := by
    simp only [inBlock, hs, IPRange.coveredBy, Bool.and_eq_true]
    simp only [Prefix.Masked, PrefixLastIP, Addr.lessOrEq_same]
    have hb2 : (⟨addr.Is6, addr.val / 2 ^ (addr.BitLen - len) * 2 ^ (addr.BitLen - len),
        ""⟩ : Addr).BitLen = addr.BitLen := rfl
    rw [hb2, block_inside_iff]
    omega
  obtain ⟨anchor, hlow2, hw⟩ :=
    validateAddressesAreWithinPrefix_eq L ⟨[s], p, ""⟩ (by simp) hall
  have : anchor = Prefix.Masked ⟨addr, len⟩ := IsLowestAddress_unique hlow2 hlow
  subst this
  simp only [hblock] at hw
  constructor
  · rw [validate_eq]
    simp only [hnil, if_true, hw, Option.map_some', Option.some.injEq, deferred_eq_none_iff,
      membershipErrors_nil_iff, List.mem_singleton, forall_eq]
    exact hcov
  · intro hlt
    have hn : inBlock L ⟨(⟨Prefix.Masked ⟨addr, len⟩, p.toNat⟩ : Prefix).Masked,
        PrefixLastIP ⟨Prefix.Masked ⟨addr, len⟩, p.toNat⟩⟩ s = false := by
      cases hc : inBlock L ⟨(⟨Prefix.Masked ⟨addr, len⟩, p.toNat⟩ : Prefix).Masked,
        PrefixLastIP ⟨Prefix.Masked ⟨addr, len⟩, p.toNat⟩⟩ s with
      | false => rfl
      | true => have := hcov.mp hc; omega
    rw [validate_errorList, if_pos hnil, hw]
    simp [membershipErrors, List.filter_cons, hn, differentSubnet]

/-- C14 at the entry 10.0.0.0/24: valid with the pool prefix 16. -/
theorem validate_single_cidr_witness :
    (validate netText none ⟨"InClusterIPPool", "pool", ⟨["10.0.0.0/24"], 16, ""⟩⟩ =
      some none ↔ (16 : Int) ≤ ((24 : Nat) : Int)) ∧
    (((24 : Nat) : Int) < 16 →
      (validate netText none
          ⟨"InClusterIPPool", "pool", ⟨["10.0.0.0/24"], 16, ""⟩⟩).map errorList =
        some [⟨"spec.addresses", .str "10.0.0.0/24",
          "provided address belongs to a different subnet than others"⟩]) :=
  validate_single_cidr netText none "InClusterIPPool" "pool" "10.0.0.0/24"
    ⟨false, 167772160, ""⟩ 24 16 (by rfl) (by decide) (by decide)

/-- The entry 10.0.0.0/24 under the pool prefix 28 is wider than the subnet and
is rejected; under the pool prefix 16 it is accepted. -/
theorem validate_cidr_examples :
    (validate netText none
        ⟨"InClusterIPPool", "pool", ⟨["10.0.0.0/24"], 28, ""⟩⟩).map errorList =
      some [differentSubnet "10.0.0.0/24"] ∧
    validate netText none ⟨"InClusterIPPool", "pool", ⟨["10.0.0.0/24"], 16, ""⟩⟩ =
      some none ∧
    (validate netText none poolMixed).map errorList = some [differentSubnet "::1"] := by
  decide

end InClusterIPPool
